import Mathlib

set_option autoImplicit false

/-!
Verification development for the SNS topic sync adapter
(cartography/intel/aws/sns.py).

The adapter is embedded shallowly:

* Python dicts become association lists over `String` keys; scalar values
  appearing in topic records are `PyVal` (strings and integers).
* The Neo4j graph touched by this module is a `GraphState`: the list of
  `AwsSnsTopic` node property maps, the set of `AWSAccount` node ids, and
  the list of `RESOURCE` relationships with their `firstseen`/`lastupdated`
  properties.  Cypher `timestamp()` is threaded in as an explicit `now`
  argument.
* Fallible Python code (dict key access, `int()` / `float()` parsing,
  missing query parameters) returns `Except String`.
* The store version detected by `get_neo4j_version` is modelled as an exact
  rational (Python builds the float from the two leading dot-segments of
  the version string).
* The framework's generic schema-driven loader (`cartography.client.core.tx.load`)
  and cleanup job (`cartography.graph.job.GraphJob`) are not part of the
  sources under review; they are modelled from the spec, as marked on the
  corresponding definitions.
-/

/-- A Python scalar value stored in a topic record or node property map:
the module only ever stores strings and integers. -/
inductive PyVal where
  | str (s : String)
  | int (n : Int)
deriving DecidableEq, Repr

/-- A Python dict with string keys and scalar values, as an association list
(first binding of a key wins on lookup; the module never builds duplicate keys). -/
abbrev PyDict := List (String × PyVal)

/-- A Python dict with string keys and string values (an SNS attribute bag). -/
abbrev StrDict := List (String × String)

/-- Splits a character list at every occurrence of `sep`; the backbone of
Python `str.split(sep)` for a one-character separator. -/
def splitCharAux (sep : Char) : List Char → List (List Char)
  | [] => [[]]
  | c :: rest =>
    match splitCharAux sep rest with
    | [] => [[]]
    | g :: gs => if c = sep then [] :: g :: gs else (c :: g) :: gs

/-- Python `s.split(sep)` for a one-character separator: always returns at
least one (possibly empty) segment, and no segment contains `sep`. -/
def pySplit (s : String) (sep : Char) : List String :=
  (splitCharAux sep s.data).map (fun l => String.mk l)

/-- Parses a non-empty all-digit character list as a decimal natural. -/
def natOfDigits : List Char → Nat → Option Nat
  | [], acc => some acc
  | c :: rest, acc =>
    if c.isDigit then natOfDigits rest (acc * 10 + (c.toNat - '0'.toNat)) else none

/-- The digit-string case of Python's integer parsing: a non-empty run of
decimal digits.  (Python also strips whitespace and accepts an explicit
sign or underscores; the strings this module parses are plain digit runs.) -/
def pyNatDigits (cs : List Char) : Option Nat :=
  match cs with
  | [] => none
  | _ :: _ => natOfDigits cs 0

/-- `d[k]` as an optional lookup (`k in d` / `d.get(k)`). -/
def dictFind? {α : Type} (d : List (String × α)) (k : String) : Option α :=
  match d with
  | [] => none
  | (k', v) :: rest => if k' = k then some v else dictFind? rest k

/-- Python `d.get(k, dflt)`. -/
def dictGet {α : Type} (d : List (String × α)) (k : String) (dflt : α) : α :=
  (dictFind? d k).getD dflt

/-- Python `int(s)` on the attribute strings: parses an optionally
`-`-signed decimal integer, raising `ValueError` otherwise. -/
def pyInt (s : String) : Except String Int :=
  match s.data with
  | '-' :: rest =>
    match pyNatDigits rest with
    | some n => Except.ok (-(n : Int))
    | none => Except.error ("ValueError: invalid literal for int: " ++ s)
  | cs =>
    match pyNatDigits cs with
    | some n => Except.ok ((n : Nat) : Int)
    | none => Except.error ("ValueError: invalid literal for int: " ++ s)

/-- The response of the boto3 `get_topic_attributes` call: a dict whose
`Attributes` key (when present) holds the topic's attribute bag.  The code
only reads this one key, via `.get('Attributes', \x7b\x7d)`. -/
structure AttrResponse where
  Attributes : Option StrDict
deriving DecidableEq, Repr

/-- Embeds `get_topic_attributes`.  The underlying SDK call either returns a
response or raises; the function catches any exception, logs a warning and
returns `None` instead of propagating.  The first component is the returned
value, the second the list of warnings logged during the call. -/
def get_topic_attributes (topic_arn : String) (callResult : Except String AttrResponse) :
    Option AttrResponse × List String :=
  match callResult with
  | Except.ok resp => (some resp, [])
  | Except.error e =>
    (none, ["Error getting attributes for SNS topic " ++ topic_arn ++ ": " ++ e])

/-- The attribute bag used by the transform for one ARN:
`attributes.get(topic_arn, \x7b\x7d).get('Attributes', \x7b\x7d)`. -/
def attrsOf (attributes : List (String × AttrResponse)) (topic_arn : String) : StrDict :=
  match dictFind? attributes topic_arn with
  | some resp => resp.Attributes.getD []
  | none => []

/-- Embeds the loop body of `transform_sns_topics` for one raw topic dict:
read `topic['TopicArn']` (a `KeyError` propagates), derive the short name as
the substring after the last `:`, look up the attribute bag, and build the
transformed record with the type-specific defaults of the source. -/
def transformTopic (attributes : List (String × AttrResponse)) (topic : StrDict) :
    Except String PyDict :=
  match dictFind? topic "TopicArn" with
  | none => Except.error "KeyError: TopicArn"
  | some topic_arn =>
    let topic_name := (pySplit topic_arn ':').getLastD ""
    let topic_attrs := attrsOf attributes topic_arn
    match pyInt (dictGet topic_attrs "SubscriptionsPending" "0") with
    | Except.error e => Except.error e
    | Except.ok sp =>
      match pyInt (dictGet topic_attrs "SubscriptionsConfirmed" "0") with
      | Except.error e => Except.error e
      | Except.ok sc =>
        match pyInt (dictGet topic_attrs "SubscriptionsDeleted" "0") with
        | Except.error e => Except.error e
        | Except.ok sd =>
          Except.ok
            [("TopicArn", PyVal.str topic_arn),
             ("TopicName", PyVal.str topic_name),
             ("DisplayName", PyVal.str (dictGet topic_attrs "DisplayName" "")),
             ("Owner", PyVal.str (dictGet topic_attrs "Owner" "")),
             ("SubscriptionsPending", PyVal.int sp),
             ("SubscriptionsConfirmed", PyVal.int sc),
             ("SubscriptionsDeleted", PyVal.int sd),
             ("DeliveryPolicy", PyVal.str (dictGet topic_attrs "DeliveryPolicy" "")),
             ("EffectiveDeliveryPolicy",
               PyVal.str (dictGet topic_attrs "EffectiveDeliveryPolicy" "")),
             ("KmsMasterKeyId", PyVal.str (dictGet topic_attrs "KmsMasterKeyId" ""))]

/-- Embeds `transform_sns_topics`: the loop over the raw topic list, building
the transformed records in input order.  The `region` argument is accepted
and unused, exactly as in the source. -/
def transform_sns_topics (topics : List StrDict) (attributes : List (String × AttrResponse))
    (region : String) : Except String (List PyDict) :=
  match topics with
  | [] => Except.ok []
  | t :: rest =>
    match transformTopic attributes t with
    | Except.error e => Except.error e
    | Except.ok r =>
      match transform_sns_topics rest attributes region with
      | Except.error e => Except.error e
      | Except.ok rs => Except.ok (r :: rs)

/-- Python `float(major ++ "." ++ minor)` for digit-only segments, as an
exact rational (the decimal value the float literal denotes). -/
def pyFloatOfParts (major minor : String) : Option ℚ :=
  match pyNatDigits major.data, pyNatDigits minor.data with
  | some M, some m => some ((M : ℚ) + (m : ℚ) / ((10 : ℚ) ^ minor.data.length))
  | _, _ => none

/-- Embeds `get_neo4j_version`, applied to the version string returned by the
store's `dbms.components()` introspection query: split on `.`, take the first
two segments as major and minor, and convert `f"\x7bmajor\x7d.\x7bminor\x7d"`
to a number.  Unpacking or conversion failures propagate. -/
def get_neo4j_version (version_string : String) : Except String ℚ :=
  match (pySplit version_string '.').take 2 with
  | [major, minor] =>
    match pyFloatOfParts major minor with
    | some q => Except.ok q
    | none => Except.error "ValueError: could not convert string to float"
  | _ => Except.error "ValueError: not enough values to unpack"

/-- Source of one schema property: a key of the per-record data dict, or a
key of the call-time kwargs (`set_in_kwargs=True`). -/
inductive PropSource where
  | fromData (key : String)
  | fromKwargs (key : String)
deriving DecidableEq, Repr

/-- The `AwsSnsTopicNodeProperties` dataclass: property name paired with its
`PropertyRef`, in declaration order (the order `__dict__` iterates). -/
def awsSnsTopicSchemaProps : List (String × PropSource) :=
  [("id", PropSource.fromData "TopicArn"),
   ("arn", PropSource.fromData "TopicArn"),
   ("name", PropSource.fromData "TopicName"),
   ("displayname", PropSource.fromData "DisplayName"),
   ("owner", PropSource.fromData "Owner"),
   ("subscriptionspending", PropSource.fromData "SubscriptionsPending"),
   ("subscriptionsconfirmed", PropSource.fromData "SubscriptionsConfirmed"),
   ("subscriptionsdeleted", PropSource.fromData "SubscriptionsDeleted"),
   ("deliverypolicy", PropSource.fromData "DeliveryPolicy"),
   ("effectivedeliverypolicy", PropSource.fromData "EffectiveDeliveryPolicy"),
   ("kmsmasterkeyid", PropSource.fromData "KmsMasterKeyId"),
   ("region", PropSource.fromKwargs "Region"),
   ("lastupdated", PropSource.fromKwargs "lastupdated")]

/-- The kwargs every call site passes to `compatible_load`
(`load_sns_topics` always supplies exactly `Region`, `lastupdated` and
`AWS_ACCOUNT_ID`). -/
structure LoadKwargs where
  Region : String
  lastupdated : Int
  AWS_ACCOUNT_ID : String
deriving DecidableEq, Repr

/-- `kwargs[k]` / `k in kwargs` for the kwargs dict of `compatible_load`. -/
def kwargsFind? (kw : LoadKwargs) (k : String) : Option PyVal :=
  if k = "Region" then some (PyVal.str kw.Region)
  else if k = "lastupdated" then some (PyVal.int kw.lastupdated)
  else if k = "AWS_ACCOUNT_ID" then some (PyVal.str kw.AWS_ACCOUNT_ID)
  else none

/-- A `RESOURCE` relationship `(account)-[r]->(topic)` with its properties. -/
structure RelRec where
  accountId : String
  topicId : PyVal
  firstseen : Int
  lastupdated : Int
deriving DecidableEq, Repr

/-- The slice of the Neo4j graph this module touches: `AwsSnsTopic` node
property maps, ids of existing `AWSAccount` nodes (never written by this
module), and the `RESOURCE` relationships. -/
structure GraphState where
  topics : List PyDict
  accounts : List String
  rels : List RelRec
deriving DecidableEq, Repr

/-- Cypher `SET n.k = v`: overwrite the property in place, or add it. -/
def dictSet (d : PyDict) (k : String) (v : PyVal) : PyDict :=
  match d with
  | [] => [(k, v)]
  | (k', v') :: rest => if k' = k then (k, v) :: rest else (k', v') :: dictSet rest k v

/-- A `SET` clause over a whole property map, applied left to right. -/
def dictSetMany (d : PyDict) (updates : PyDict) : PyDict :=
  match updates with
  | [] => d
  | (k, v) :: rest => dictSetMany (dictSet d k v) rest

/-- The `id` property of a topic node. -/
def nodeId? (n : PyDict) : Option PyVal := dictFind? n "id"

/-- Cypher `MATCH (n:AwsSnsTopic \x7bid: $id\x7d)` against the node list:
the first node carrying that id. -/
def lookupTopic (ns : List PyDict) (idv : PyVal) : Option PyDict :=
  match ns with
  | [] => none
  | n :: rest => if nodeId? n = some idv then some n else lookupTopic rest idv

/-- The node-merge query of the legacy path:
`MERGE (n:AwsSnsTopic \x7bid: $id\x7d) ON CREATE SET n.firstseen = timestamp()
SET ...all mapped properties...`.  On match the mapped properties overwrite
the existing ones; on create the node starts from `\x7bid, firstseen\x7d`. -/
def mergeNodeList (now : Int) (idv : PyVal) (setProps : PyDict) :
    List PyDict → List PyDict
  | [] => [dictSetMany [("id", idv), ("firstseen", PyVal.int now)] setProps]
  | n :: rest =>
    if nodeId? n = some idv then dictSetMany n setProps :: rest
    else n :: mergeNodeList now idv setProps rest

/-- The relationship-merge query:
`MATCH (n \x7bid: $id\x7d), (a:AWSAccount \x7bid: $aws_account_id\x7d)
MERGE (a)-[r:RESOURCE]->(n) ON CREATE SET r.firstseen = timestamp()
SET r.lastupdated = $update_tag`.  If either node is missing the `MATCH`
produces no row and nothing is written. -/
def mergeRel (now : Int) (accountId : String) (topicId : PyVal) (tag : Int)
    (st : GraphState) : GraphState :=
  if (lookupTopic st.topics topicId).isSome ∧ accountId ∈ st.accounts then
    if ∃ r ∈ st.rels, r.accountId = accountId ∧ r.topicId = topicId then
      { st with rels := st.rels.map (fun r =>
          if r.accountId = accountId ∧ r.topicId = topicId then
            { r with lastupdated := tag } else r) }
    else
      { st with rels := st.rels ++ [⟨accountId, topicId, now, tag⟩] }
  else st

/-- Builds a property map from a spec list `(property name, source key)`,
keeping the properties whose source resolves, in spec order.  This is the
inner loop of `compatible_load` that fills `node_props`. -/
def buildProps (f : String → Option PyVal) : List (String × String) → PyDict
  | [] => []
  | (p, src) :: rest =>
    match f src with
    | some v => (p, v) :: buildProps f rest
    | none => buildProps f rest

/-- `kwargs[src] if src in kwargs else (item[src] if src in item else absent)` —
the per-item source resolution of `compatible_load`. -/
def itemLookup (kw : LoadKwargs) (item : PyDict) (src : String) : Option PyVal :=
  match kwargsFind? kw src with
  | some v => some v
  | none => dictFind? item src

/-- The `property_map` loop of `compatible_load`: data-sourced properties are
always mapped; kwargs-sourced properties are mapped only when their key is
present in the kwargs. -/
def legacyPropertyMapFrom (kw : LoadKwargs) :
    List (String × PropSource) → List (String × String)
  | [] => []
  | (p, PropSource.fromData key) :: rest => (p, key) :: legacyPropertyMapFrom kw rest
  | (p, PropSource.fromKwargs key) :: rest =>
    if (kwargsFind? kw key).isSome then (p, key) :: legacyPropertyMapFrom kw rest
    else legacyPropertyMapFrom kw rest

/-- The legacy path's `property_map` for the SNS topic schema. -/
def legacyPropertyMap (kw : LoadKwargs) : List (String × String) :=
  legacyPropertyMapFrom kw awsSnsTopicSchemaProps

/-- The legacy path's `node_props` for one data item. -/
def legacyNodeProps (kw : LoadKwargs) (item : PyDict) : PyDict :=
  buildProps (itemLookup kw item) (legacyPropertyMap kw)

/-- Every schema property paired with its source key (used by the modern
loader, which consumes the schema directly). -/
def schemaPropKeys : List (String × PropSource) → List (String × String)
  | [] => []
  | (p, PropSource.fromData key) :: rest => (p, key) :: schemaPropKeys rest
  | (p, PropSource.fromKwargs key) :: rest => (p, key) :: schemaPropKeys rest

/-- The field map the schema-driven loader works from. -/
def modernPropertyMap : List (String × String) :=
  schemaPropKeys awsSnsTopicSchemaProps

/-- Modelled from the spec: the property values the framework's generic
schema-driven loader writes for one record — each schema field populated from
the call-time kwargs or from the record. -/
def modernNodeProps (kw : LoadKwargs) (item : PyDict) : PyDict :=
  buildProps (itemLookup kw item) modernPropertyMap

/-- One iteration of the legacy (`Neo4j < 4.0`) loop of `compatible_load`:
build `node_props`, run the node merge (a missing `$id` parameter is a query
error), then — only when `aws_account_id` and `update_tag` are both truthy —
run the relationship merge. -/
def legacyLoadItem (now : Int) (kw : LoadKwargs) (st : GraphState) (item : PyDict) :
    Except String GraphState :=
  let node_props := legacyNodeProps kw item
  match dictFind? node_props "id" with
  | none => Except.error "ParameterMissing: id"
  | some idv =>
    let st1 : GraphState := { st with topics := mergeNodeList now idv node_props st.topics }
    if kw.AWS_ACCOUNT_ID ≠ "" ∧ kw.lastupdated ≠ 0 then
      Except.ok (mergeRel now kw.AWS_ACCOUNT_ID idv kw.lastupdated st1)
    else
      Except.ok st1

/-- The legacy path of `compatible_load`: the item loop. -/
def legacyLoad (now : Int) (kw : LoadKwargs) :
    List PyDict → GraphState → Except String GraphState
  | [], st => Except.ok st
  | item :: rest, st =>
    match legacyLoadItem now kw st item with
    | Except.error e => Except.error e
    | Except.ok st1 => legacyLoad now kw rest st1

/-- Modelled from the spec: one record step of the framework's generic
schema-driven loader `cartography.client.core.tx.load` (not among the sources
under review).  Per the spec it performs an index-ensured merge: the node
keyed by the record identifier is merged with every available schema field
set and a creation timestamp stamped on first creation, and the
account→topic `RESOURCE` edge is merged, stamping a creation timestamp on
create and always refreshing the freshness tag; a missing account node
silently yields no edge. -/
def modernLoadItem (now : Int) (kw : LoadKwargs) (st : GraphState) (item : PyDict) :
    Except String GraphState :=
  let node_props := modernNodeProps kw item
  match dictFind? node_props "id" with
  | none => Except.error "ParameterMissing: id"
  | some idv =>
    let st1 : GraphState := { st with topics := mergeNodeList now idv node_props st.topics }
    Except.ok (mergeRel now kw.AWS_ACCOUNT_ID idv kw.lastupdated st1)

/-- Modelled from the spec: the record loop of the schema-driven loader. -/
def modernLoad (now : Int) (kw : LoadKwargs) :
    List PyDict → GraphState → Except String GraphState
  | [], st => Except.ok st
  | item :: rest, st =>
    match modernLoadItem now kw st item with
    | Except.error e => Except.error e
    | Except.ok st1 => modernLoad now kw rest st1

/-- Embeds `compatible_load`: detect the store version (passed in as the
value the introspection query produced) and dispatch — `load` for 4.x+ and
the direct-query implementation for 3.5. -/
def compatible_load (neo4j_version : ℚ) (now : Int) (kw : LoadKwargs)
    (data : List PyDict) (st : GraphState) : Except String GraphState :=
  if 4 ≤ neo4j_version then modernLoad now kw data st
  else legacyLoad now kw data st

/-- Embeds `load_sns_topics`: delegate to `compatible_load` with kwargs
`lastupdated=update_tag, Region=region, AWS_ACCOUNT_ID=aws_account_id`. -/
def load_sns_topics (neo4j_version : ℚ) (now : Int) (data : List PyDict) (region : String)
    (aws_account_id : String) (update_tag : Int) (st : GraphState) :
    Except String GraphState :=
  compatible_load neo4j_version now ⟨region, update_tag, aws_account_id⟩ data st

/-- The `common_job_parameters` dict as passed by the callers of
`cleanup_sns` (both keys are always supplied). -/
structure CommonJobParameters where
  UPDATE_TAG : Int
  AWS_ID : String
deriving DecidableEq, Repr

/-- Cypher `n.lastupdated <> $update_tag` as a row filter: comparison with a
missing property is null, and a null `WHERE` does not match the row. -/
def staleTopic (tag : Int) (n : PyDict) : Bool :=
  match dictFind? n "lastupdated" with
  | some v => decide (v ≠ PyVal.int tag)
  | none => false

/-- The legacy cleanup query
`MATCH (n:AwsSnsTopic) WHERE n.lastupdated <> $update_tag WITH n LIMIT 10000
DETACH DELETE n`: delete the first `limit` stale nodes in match order.
Returns the surviving nodes and the ids of the deleted ones. -/
def deleteStale (tag : Int) : Nat → List PyDict → List PyDict × List (Option PyVal)
  | _, [] => ([], [])
  | 0, ns => (ns, [])
  | Nat.succ k, n :: rest =>
    if staleTopic tag n then
      let res := deleteStale tag k rest
      (res.1, nodeId? n :: res.2)
    else
      let res := deleteStale tag (Nat.succ k) rest
      (n :: res.1, res.2)

/-- `DETACH`: relationships attached to a deleted node are removed with it. -/
def detachRels (deleted : List (Option PyVal)) (rels : List RelRec) : List RelRec :=
  rels.filter (fun r => decide (¬ some r.topicId ∈ deleted))

/-- Modelled from the spec: the cleanup job
`GraphJob.from_node_schema(AwsSnsTopicSchema(), ...)` (not among the sources
under review) — "delete any node of this label not carrying the current
run's freshness tag", detach-deleting, with no batch cap. -/
def modernCleanup (p : CommonJobParameters) (st : GraphState) : GraphState :=
  let doomed := st.topics.filter (staleTopic p.UPDATE_TAG)
  { st with
      topics := st.topics.filter (fun n => ! staleTopic p.UPDATE_TAG n),
      rels := detachRels (doomed.map nodeId?) st.rels }

/-- The legacy (`Neo4j 3.5`) branch of `cleanup_sns`: the direct delete
query, bounded to 10000 nodes, parameterised only by
`common_job_parameters['UPDATE_TAG']`.  The branch also reads
`common_job_parameters['AWS_ID']` but never uses it in the query. -/
def legacyCleanup (p : CommonJobParameters) (st : GraphState) : GraphState :=
  let res := deleteStale p.UPDATE_TAG 10000 st.topics
  { st with topics := res.1, rels := detachRels res.2 st.rels }

/-- Embeds `cleanup_sns`: branch on the (detected or test-supplied) store
version; the modern path runs the schema cleanup job, the legacy path runs
the direct delete bounded to 10000 nodes. -/
def cleanup_sns (neo4j_version : ℚ) (p : CommonJobParameters) (st : GraphState) :
    GraphState :=
  if 4 ≤ neo4j_version then modernCleanup p st
  else legacyCleanup p st

/-! Derived notions used to state the properties. -/

/-- The freshness tag of the `RESOURCE` relationship between an account node
and a topic node, when such a relationship exists. -/
def relTag? (rels : List RelRec) (accountId : String) (topicId : PyVal) : Option Int :=
  match rels with
  | [] => none
  | r :: rest =>
    if r.accountId = accountId ∧ r.topicId = topicId then some r.lastupdated
    else relTag? rest accountId topicId

/-- `pyInt` with the error collapsed (used only to describe values that are
known to parse). -/
def pyIntD (s : String) : Int :=
  match pyInt s with
  | Except.ok z => z
  | Except.error _ => 0

/-- Whether `pyInt` succeeds on `s`. -/
def pyIntOk (s : String) : Bool :=
  match pyInt s with
  | Except.ok _ => true
  | Except.error _ => false

/-- Whether the three subscription-counter attribute strings of a bag parse
as integers (with the `'0'` default for an absent key). -/
def countersOK (attrs : StrDict) : Bool :=
  pyIntOk (dictGet attrs "SubscriptionsPending" "0") &&
  pyIntOk (dictGet attrs "SubscriptionsConfirmed" "0") &&
  pyIntOk (dictGet attrs "SubscriptionsDeleted" "0")

/-- The record `transform_sns_topics` builds for a raw topic whose ARN is
`arn`, written out as a value (valid whenever the counters parse). -/
def recordOf (attributes : List (String × AttrResponse)) (arn : String) : PyDict :=
  [("TopicArn", PyVal.str arn),
   ("TopicName", PyVal.str ((pySplit arn ':').getLastD "")),
   ("DisplayName", PyVal.str (dictGet (attrsOf attributes arn) "DisplayName" "")),
   ("Owner", PyVal.str (dictGet (attrsOf attributes arn) "Owner" "")),
   ("SubscriptionsPending",
     PyVal.int (pyIntD (dictGet (attrsOf attributes arn) "SubscriptionsPending" "0"))),
   ("SubscriptionsConfirmed",
     PyVal.int (pyIntD (dictGet (attrsOf attributes arn) "SubscriptionsConfirmed" "0"))),
   ("SubscriptionsDeleted",
     PyVal.int (pyIntD (dictGet (attrsOf attributes arn) "SubscriptionsDeleted" "0"))),
   ("DeliveryPolicy", PyVal.str (dictGet (attrsOf attributes arn) "DeliveryPolicy" "")),
   ("EffectiveDeliveryPolicy",
     PyVal.str (dictGet (attrsOf attributes arn) "EffectiveDeliveryPolicy" "")),
   ("KmsMasterKeyId", PyVal.str (dictGet (attrsOf attributes arn) "KmsMasterKeyId" ""))]

/-- The `TopicArn` of a raw topic dict (meaningful when the key is present). -/
def arnOf (t : StrDict) : String :=
  (dictFind? t "TopicArn").getD ""

/-- The node the merge query creates for a data item that was not yet in the
graph: `\x7bid, firstseen\x7d` overwritten with the mapped properties. -/
def freshTopicNode (now : Int) (kw : LoadKwargs) (item : PyDict) : PyDict :=
  dictSetMany
    [("id", (dictFind? item "TopicArn").getD (PyVal.str "")), ("firstseen", PyVal.int now)]
    (modernNodeProps kw item)

/-! Concrete inputs used by the witnesses and counterexamples. -/

/-- A raw topic listing as returned by `list_topics` (test fixture shape). -/
def cTopics : List StrDict :=
  [[("TopicArn", "arn:aws:sns:us-east-1:123456789012:test-topic-1")],
   [("TopicArn", "arn:aws:sns:us-west-1:123456789012:test-topic-2")]]

/-- Attribute responses for `cTopics`: the first topic carries a bag with
`SubscriptionsConfirmed = "2"` and no `DisplayName`; the second has no
fetched response at all. -/
def cAttrs : List (String × AttrResponse) :=
  [("arn:aws:sns:us-east-1:123456789012:test-topic-1",
    ⟨some [("Owner", "123456789012"), ("SubscriptionsConfirmed", "2")]⟩)]

/-- A one-record data set whose ARN contains no `:` separator. -/
def cNoSepTopics : List StrDict := [[("TopicArn", "invalid-arn")]]

/-- A transformed record for the zero-tag counterexample. -/
def cItem : PyDict := [("TopicArn", PyVal.str "arn:aws:sns:r:a:t1")]

/-- Kwargs with a zero (falsy) freshness tag. -/
def cKwZero : LoadKwargs := ⟨"us-east-1", 0, "000000000000"⟩

/-- A graph holding just the account node `000000000000`. -/
def cStAcct : GraphState := ⟨[], ["000000000000"], []⟩

/-- The bulk data set for the cleanup-cap counterexample: 10001 records with
pairwise distinct ARNs. -/
def cBulk : List PyDict :=
  (List.range 10001).map (fun i => [("TopicArn", PyVal.str (String.mk (List.replicate i 'a')))])

/-- The end state of the legacy path on `cItem` with a zero freshness tag. -/
def cLegacyZeroSt : GraphState :=
  (legacyLoad 0 cKwZero [cItem] cStAcct).toOption.getD ⟨[], [], []⟩

/-- The end state of the modern path on `cItem` with a zero freshness tag. -/
def cModernZeroSt : GraphState :=
  (modernLoad 0 cKwZero [cItem] cStAcct).toOption.getD ⟨[], [], []⟩

/-- The end state of the upsert on a graph with no account node and a zero
freshness tag (legacy version 3). -/
def cNoAcctSt : GraphState :=
  (load_sns_topics 3 0 [cItem] "us-east-1" "000000000000" 0 ⟨[], [], []⟩).toOption.getD
    ⟨[], [], []⟩

/-- A two-topic graph (one stale at tag 2, one fresh) for cleanup witnesses. -/
def cCleanSt : GraphState :=
  ⟨[[("id", PyVal.str "x"), ("lastupdated", PyVal.int 1)],
    [("id", PyVal.str "y"), ("lastupdated", PyVal.int 2)]],
   ["000000000000"], []⟩

/-- The graph state after upserting `cBulk` with tag 1 into an empty graph
(legacy path, no account node, `timestamp() = 0`). -/
def cBulkLoaded : GraphState :=
  ⟨cBulk.map (freshTopicNode 0 ⟨"r", 1, ""⟩), [], []⟩

/-- The transform output on `cTopics`/`cAttrs` (evaluated). -/
def cTransformed : List PyDict :=
  (transform_sns_topics cTopics cAttrs "us-east-1").toOption.getD []

/-- The ten keys of every record `transform_sns_topics` produces. -/
def snsRecordKeys : List String :=
  ["TopicArn", "TopicName", "DisplayName", "Owner", "SubscriptionsPending",
   "SubscriptionsConfirmed", "SubscriptionsDeleted", "DeliveryPolicy",
   "EffectiveDeliveryPolicy", "KmsMasterKeyId"]

/-! Association-list lemmas. -/

theorem dictFind?_cons {α : Type} (k' : String) (v : α) (d : List (String × α)) (k : String) :
    dictFind? ((k', v) :: d) k = if k' = k then some v else dictFind? d k := rfl

theorem dictFind?_mem {α : Type} {d : List (String × α)} {k : String} {v : α}
    (h : dictFind? d k = some v) : (k, v) ∈ d := by
  induction d with
  | nil => simp [dictFind?] at h
  | cons kv rest ih =>
    obtain ⟨k', v'⟩ := kv
    rw [dictFind?_cons] at h
    by_cases hk : k' = k
    · simp [hk] at h
      simp [hk, h]
    · simp [hk] at h
      exact List.mem_cons_of_mem _ (ih h)

theorem dictFind?_dictSet_self (d : PyDict) (k : String) (v : PyVal) :
    dictFind? (dictSet d k v) k = some v := by
  induction d with
  | nil => simp [dictSet, dictFind?]
  | cons kv rest ih =>
    obtain ⟨k', v'⟩ := kv
    by_cases hk : k' = k
    · simp [dictSet, hk, dictFind?]
    · simp [dictSet, hk, dictFind?, ih]

theorem dictFind?_dictSet_ne (d : PyDict) (k : String) (v : PyVal) (k' : String)
    (h : k ≠ k') : dictFind? (dictSet d k v) k' = dictFind? d k' := by
  induction d with
  | nil => simp [dictSet, dictFind?, h]
  | cons kv rest ih =>
    obtain ⟨k0, v0⟩ := kv
    by_cases hk : k0 = k
    · simp [dictSet, hk, dictFind?, h]
    · simp [dictSet, hk, dictFind?, ih]

theorem dictSet_eq_self {d : PyDict} {k : String} {v : PyVal}
    (h : dictFind? d k = some v) : dictSet d k v = d := by
  induction d with
  | nil => simp [dictFind?] at h
  | cons kv rest ih =>
    obtain ⟨k', v'⟩ := kv
    rw [dictFind?_cons] at h
    by_cases hk : k' = k
    · simp [hk] at h
      simp [dictSet, hk, h]
    · simp [hk] at h
      simp [dictSet, hk, ih h]

theorem dictFind?_dictSetMany_not_mem (d : PyDict) (u : PyDict) (k : String)
    (h : k ∉ u.map Prod.fst) : dictFind? (dictSetMany d u) k = dictFind? d k := by
  induction u generalizing d with
  | nil => rfl
  | cons kv rest ih =>
    obtain ⟨k0, v0⟩ := kv
    simp only [List.map_cons, List.mem_cons] at h
    push_neg at h
    rw [dictSetMany, ih _ h.2, dictFind?_dictSet_ne _ _ _ _ (fun he => h.1 he.symm)]

theorem dictFind?_dictSetMany_mem (d : PyDict) (u : PyDict) (k : String) (v : PyVal)
    (hnd : (u.map Prod.fst).Nodup) (hmem : (k, v) ∈ u) :
    dictFind? (dictSetMany d u) k = some v := by
  induction u generalizing d with
  | nil => simp at hmem
  | cons kv rest ih =>
    obtain ⟨k0, v0⟩ := kv
    simp only [List.map_cons, List.nodup_cons] at hnd
    rcases List.mem_cons.mp hmem with h | h
    · cases h
      show dictFind? (dictSetMany (dictSet d k v) rest) k = some v
      rw [dictFind?_dictSetMany_not_mem _ _ _ hnd.1, dictFind?_dictSet_self]
    · show dictFind? (dictSetMany (dictSet d k0 v0) rest) k = some v
      exact ih _ hnd.2 h

theorem dictSetMany_eq_self {d : PyDict} {u : PyDict}
    (h : ∀ kv ∈ u, dictFind? d kv.1 = some kv.2) : dictSetMany d u = d := by
  induction u with
  | nil => rfl
  | cons kv rest ih =>
    obtain ⟨k0, v0⟩ := kv
    show dictSetMany (dictSet d k0 v0) rest = d
    rw [dictSet_eq_self (h (k0, v0) (List.mem_cons_self _ _))]
    exact ih (fun kv hkv => h kv (List.mem_cons_of_mem _ hkv))

theorem dictSetMany_idem (d : PyDict) (u : PyDict) (hnd : (u.map Prod.fst).Nodup) :
    dictSetMany (dictSetMany d u) u = dictSetMany d u :=
  dictSetMany_eq_self (fun kv hkv => dictFind?_dictSetMany_mem d u kv.1 kv.2 hnd hkv)

theorem dictSet_keys_of_mem (d : PyDict) (k : String) (v : PyVal)
    (h : k ∈ d.map Prod.fst) : (dictSet d k v).map Prod.fst = d.map Prod.fst := by
  induction d with
  | nil => simp at h
  | cons kv rest ih =>
    obtain ⟨k0, v0⟩ := kv
    by_cases hk : k0 = k
    · simp [dictSet, hk]
    · simp only [List.map_cons, List.mem_cons] at h
      rcases h with h | h
    
      · exact absurd h.symm hk
      · simp [dictSet, hk, ih h]

/-- A list is unchanged by mapping a function that fixes each element. -/
theorem map_eq_self_of {α : Type} (l : List α) (f : α → α) (h : ∀ x ∈ l, f x = x) :
    l.map f = l := by
  induction l with
  | nil => rfl
  | cons x rest ih =>
    rw [List.map_cons, h x (List.mem_cons_self _ _),
      ih (fun y hy => h y (List.mem_cons_of_mem _ hy))]

/-! `buildProps` lemmas. -/

theorem buildProps_keys_sublist (f : String → Option PyVal) (specs : List (String × String)) :
    ((buildProps f specs).map Prod.fst).Sublist (specs.map Prod.fst) := by
  induction specs with
  | nil => simp [buildProps]
  | cons ps rest ih =>
    obtain ⟨p, src⟩ := ps
    show ((match f src with
      | some v => (p, v) :: buildProps f rest
      | none => buildProps f rest).map Prod.fst).Sublist _
    cases f src with
    | some v => exact List.Sublist.cons₂ _ ih
    | none => exact List.Sublist.cons _ ih

theorem buildProps_keys_nodup (f : String → Option PyVal) (specs : List (String × String))
    (h : (specs.map Prod.fst).Nodup) : ((buildProps f specs).map Prod.fst).Nodup :=
  h.sublist (buildProps_keys_sublist f specs)

theorem buildProps_find?_not_mem (f : String → Option PyVal) (specs : List (String × String))
    (p : String) (h : p ∉ specs.map Prod.fst) : dictFind? (buildProps f specs) p = none := by
  induction specs with
  | nil => rfl
  | cons ps rest ih =>
    obtain ⟨p0, src0⟩ := ps
    simp only [List.map_cons, List.mem_cons] at h
    push_neg at h
    have hp : p0 ≠ p := fun he => h.1 he.symm
    show dictFind? (match f src0 with
      | some v => (p0, v) :: buildProps f rest
      | none => buildProps f rest) p = none
    cases f src0 with
    | some v => simpa [dictFind?, hp] using ih h.2
    | none => exact ih h.2

theorem buildProps_find?_mem (f : String → Option PyVal) (specs : List (String × String))
    (p src : String) (hnd : (specs.map Prod.fst).Nodup) (hmem : (p, src) ∈ specs) :
    dictFind? (buildProps f specs) p = f src := by
  induction specs with
  | nil => simp at hmem
  | cons ps rest ih =>
    obtain ⟨p0, src0⟩ := ps
    simp only [List.map_cons, List.nodup_cons] at hnd
    rcases List.mem_cons.mp hmem with h | h
    · cases h
      show dictFind? (match f src with
        | some v => (p, v) :: buildProps f rest
        | none => buildProps f rest) p = f src
      cases hf : f src with
      | some v => simp [dictFind?]
      | none => exact buildProps_find?_not_mem f rest p hnd.1
    · have hp : p0 ≠ p := by
        intro he
        exact hnd.1 (he ▸ (List.mem_map.mpr ⟨(p, src), h, rfl⟩))
      show dictFind? (match f src0 with
        | some v => (p0, v) :: buildProps f rest
        | none => buildProps f rest) p = f src
      cases f src0 with
      | some v => simpa [dictFind?, hp] using ih hnd.2 h
      | none => exact ih hnd.2 h

/-! Concrete facts about the SNS topic schema's property maps. -/

theorem modernPropertyMap_eq :
    modernPropertyMap =
      [("id", "TopicArn"), ("arn", "TopicArn"), ("name", "TopicName"),
       ("displayname", "DisplayName"), ("owner", "Owner"),
       ("subscriptionspending", "SubscriptionsPending"),
       ("subscriptionsconfirmed", "SubscriptionsConfirmed"),
       ("subscriptionsdeleted", "SubscriptionsDeleted"),
       ("deliverypolicy", "DeliveryPolicy"),
       ("effectivedeliverypolicy", "EffectiveDeliveryPolicy"),
       ("kmsmasterkeyid", "KmsMasterKeyId"),
       ("region", "Region"), ("lastupdated", "lastupdated")] := rfl

/-- All three kwargs keys are present in every `LoadKwargs`, so the legacy
`property_map` loop keeps every schema property: it computes the same field
map the schema-driven loader uses. -/
theorem legacyPropertyMap_eq (kw : LoadKwargs) : legacyPropertyMap kw = modernPropertyMap :=
  rfl

theorem modernPropertyMap_keys_nodup : (modernPropertyMap.map Prod.fst).Nodup := by
  rw [modernPropertyMap_eq]
  decide

/-- The legacy path computes exactly the property values of the modern path
for every item. -/
theorem legacyNodeProps_eq_modern (kw : LoadKwargs) (item : PyDict) :
    legacyNodeProps kw item = modernNodeProps kw item := rfl

theorem modernNodeProps_find? (kw : LoadKwargs) (item : PyDict) (p src : String)
    (h : (p, src) ∈ modernPropertyMap) :
    dictFind? (modernNodeProps kw item) p = itemLookup kw item src :=
  buildProps_find?_mem _ _ p src modernPropertyMap_keys_nodup h

theorem itemLookup_TopicArn (kw : LoadKwargs) (item : PyDict) :
    itemLookup kw item "TopicArn" = dictFind? item "TopicArn" := rfl

theorem modernNodeProps_id (kw : LoadKwargs) (item : PyDict) :
    dictFind? (modernNodeProps kw item) "id" = dictFind? item "TopicArn" := by
  rw [modernNodeProps_find? kw item "id" "TopicArn" (by rw [modernPropertyMap_eq]; simp)]
  rfl

theorem modernNodeProps_region (kw : LoadKwargs) (item : PyDict) :
    dictFind? (modernNodeProps kw item) "region" = some (PyVal.str kw.Region) := by
  rw [modernNodeProps_find? kw item "region" "Region" (by rw [modernPropertyMap_eq]; simp)]
  rfl

theorem modernNodeProps_lastupdated (kw : LoadKwargs) (item : PyDict) :
    dictFind? (modernNodeProps kw item) "lastupdated" = some (PyVal.int kw.lastupdated) := by
  rw [modernNodeProps_find? kw item "lastupdated" "lastupdated"
    (by rw [modernPropertyMap_eq]; simp)]
  rfl

theorem modernNodeProps_keys_nodup (kw : LoadKwargs) (item : PyDict) :
    ((modernNodeProps kw item).map Prod.fst).Nodup :=
  buildProps_keys_nodup _ _ modernPropertyMap_keys_nodup

/-- Every property the merge writes is readable back off the merged map. -/
theorem modernNodeProps_agrees (kw : LoadKwargs) (item : PyDict) (d : PyDict)
    (k : String) (v : PyVal) (h : dictFind? (modernNodeProps kw item) k = some v) :
    dictFind? (dictSetMany d (modernNodeProps kw item)) k = some v :=
  dictFind?_dictSetMany_mem d _ k v (modernNodeProps_keys_nodup kw item) (dictFind?_mem h)

/-! Node-merge lemmas. -/

theorem lookupTopic_append (xs ys : List PyDict) (v : PyVal) :
    lookupTopic (xs ++ ys) v =
      match lookupTopic xs v with
      | some n => some n
      | none => lookupTopic ys v := by
  induction xs with
  | nil => rfl
  | cons n rest ih =>
    by_cases h : nodeId? n = some v
    · simp [lookupTopic, h]
    · simp [lookupTopic, h, ih]

theorem mergeNodeList_append_fresh (now : Int) (idv : PyVal) (P : PyDict)
    (ns : List PyDict) (h : lookupTopic ns idv = none) :
    mergeNodeList now idv P ns =
      ns ++ [dictSetMany [("id", idv), ("firstseen", PyVal.int now)] P] := by
  induction ns with
  | nil => rfl
  | cons n rest ih =>
    rw [lookupTopic] at h
    by_cases hn : nodeId? n = some idv
    · simp [hn] at h
    · simp only [hn, if_false] at h
      simp [mergeNodeList, hn, ih h]

theorem lookupTopic_cons (n : PyDict) (rest : List PyDict) (v : PyVal) :
    lookupTopic (n :: rest) v =
      if nodeId? n = some v then some n else lookupTopic rest v := rfl

theorem mergeNodeList_cons (now : Int) (idv : PyVal) (P : PyDict) (n : PyDict)
    (rest : List PyDict) :
    mergeNodeList now idv P (n :: rest) =
      if nodeId? n = some idv then dictSetMany n P :: rest
      else n :: mergeNodeList now idv P rest := rfl

theorem mergeNodeList_lookup_self (now : Int) (idv : PyVal) (P : PyDict)
    (ns : List PyDict) (hnd : (P.map Prod.fst).Nodup) (hid : dictFind? P "id" = some idv) :
    lookupTopic (mergeNodeList now idv P ns) idv =
      some (dictSetMany
        ((lookupTopic ns idv).getD [("id", idv), ("firstseen", PyVal.int now)]) P) := by
  have hset : ∀ d : PyDict, nodeId? (dictSetMany d P) = some idv := fun d =>
    dictFind?_dictSetMany_mem d P "id" idv hnd (dictFind?_mem hid)
  induction ns with
  | nil =>
    show lookupTopic [dictSetMany [("id", idv), ("firstseen", PyVal.int now)] P] idv = _
    rw [lookupTopic_cons, if_pos (hset _)]
    rfl
  | cons n rest ih =>
    rw [mergeNodeList_cons, lookupTopic_cons]
    by_cases hn : nodeId? n = some idv
    · rw [if_pos hn, if_pos hn, lookupTopic_cons, if_pos (hset _)]
      rfl
    · rw [if_neg hn, if_neg hn, lookupTopic_cons, if_neg hn]
      exact ih

theorem mergeNodeList_lookup_other (now : Int) (idv : PyVal) (P : PyDict)
    (ns : List PyDict) (v : PyVal) (hv : v ≠ idv)
    (hnd : (P.map Prod.fst).Nodup) (hid : dictFind? P "id" = some idv) :
    lookupTopic (mergeNodeList now idv P ns) v = lookupTopic ns v := by
  have hset : ∀ d : PyDict, nodeId? (dictSetMany d P) = some idv := fun d =>
    dictFind?_dictSetMany_mem d P "id" idv hnd (dictFind?_mem hid)
  have hne : ∀ d : PyDict, ¬ nodeId? (dictSetMany d P) = some v := by
    intro d he
    rw [hset d] at he
    exact hv (Option.some.inj he).symm
  induction ns with
  | nil =>
    show lookupTopic [dictSetMany [("id", idv), ("firstseen", PyVal.int now)] P] v = none
    rw [lookupTopic_cons, if_neg (hne _)]
    rfl
  | cons n rest ih =>
    rw [mergeNodeList_cons, lookupTopic_cons]
    by_cases hn : nodeId? n = some idv
    · have hnv : ¬ nodeId? n = some v := by
        intro he
        rw [hn] at he
        exact hv (Option.some.inj he).symm
      rw [if_pos hn, lookupTopic_cons, if_neg (hne _), if_neg hnv]
    · rw [if_neg hn, lookupTopic_cons]
      by_cases hnv : nodeId? n = some v
      · rw [if_pos hnv, if_pos hnv]
      · rw [if_neg hnv, if_neg hnv]
        exact ih

theorem mergeNodeList_in_place (now : Int) (idv : PyVal) (P : PyDict)
    (ns : List PyDict) (n : PyDict) (h : lookupTopic ns idv = some n)
    (hset : dictSetMany n P = n) : mergeNodeList now idv P ns = ns := by
  induction ns with
  | nil => simp [lookupTopic] at h
  | cons n0 rest ih =>
    rw [lookupTopic_cons] at h
    rw [mergeNodeList_cons]
    by_cases hn : nodeId? n0 = some idv
    · rw [if_pos hn] at h
      rw [Option.some.injEq] at h
      subst h
      rw [if_pos hn, hset]
    · rw [if_neg hn] at h
      rw [if_neg hn, ih h]

/-! Relationship-merge lemmas. -/

theorem relTag?_cons (r : RelRec) (rest : List RelRec) (a : String) (t : PyVal) :
    relTag? (r :: rest) a t =
      if r.accountId = a ∧ r.topicId = t then some r.lastupdated
      else relTag? rest a t := rfl

theorem relTag?_eq_none (rels : List RelRec) (a : String) (t : PyVal)
    (h : ∀ r ∈ rels, ¬(r.accountId = a ∧ r.topicId = t)) : relTag? rels a t = none := by
  induction rels with
  | nil => rfl
  | cons r rest ih =>
    rw [relTag?_cons, if_neg (h r (List.mem_cons_self _ _))]
    exact ih (fun r' hr' => h r' (List.mem_cons_of_mem _ hr'))

theorem relTag?_append (xs ys : List RelRec) (a : String) (t : PyVal) :
    relTag? (xs ++ ys) a t =
      match relTag? xs a t with
      | some z => some z
      | none => relTag? ys a t := by
  induction xs with
  | nil => rfl
  | cons r rest ih =>
    by_cases h : r.accountId = a ∧ r.topicId = t
    · simp [relTag?_cons, h]
    · simp [relTag?_cons, h, ih]

theorem relTag?_map_update (rels : List RelRec) (a : String) (t : PyVal) (tag : Int)
    (h : ∃ r ∈ rels, r.accountId = a ∧ r.topicId = t) :
    relTag? (rels.map (fun r =>
      if r.accountId = a ∧ r.topicId = t then { r with lastupdated := tag } else r)) a t =
      some tag := by
  induction rels with
  | nil => simp at h
  | cons r rest ih =>
    rw [List.map_cons]
    by_cases hr : r.accountId = a ∧ r.topicId = t
    · rw [if_pos hr, relTag?_cons, if_pos (by exact hr)]
    · rw [if_neg hr, relTag?_cons, if_neg hr]
      obtain ⟨r', hr', hm⟩ := h
      rcases List.mem_cons.mp hr' with he | he
      · exact absurd (he ▸ hm) hr
      · exact ih ⟨r', he, hm⟩

theorem relTag?_map_update_other (rels : List RelRec) (a : String) (t : PyVal) (tag : Int)
    (a' : String) (t' : PyVal) (h : ¬(a' = a ∧ t' = t)) :
    relTag? (rels.map (fun r =>
      if r.accountId = a ∧ r.topicId = t then { r with lastupdated := tag } else r)) a' t' =
      relTag? rels a' t' := by
  induction rels with
  | nil => rfl
  | cons r rest ih =>
    rw [List.map_cons]
    by_cases hr : r.accountId = a ∧ r.topicId = t
    · have hne : ¬(r.accountId = a' ∧ r.topicId = t') := by
        intro hc
        exact h ⟨hc.1.symm.trans hr.1, hc.2.symm.trans hr.2⟩
      rw [if_pos hr, relTag?_cons, relTag?_cons, if_neg (by exact hne), if_neg hne]
      exact ih
    · rw [if_neg hr, relTag?_cons, relTag?_cons]
      by_cases hr' : r.accountId = a' ∧ r.topicId = t'
      · rw [if_pos hr', if_pos hr']
      · rw [if_neg hr', if_neg hr']
        exact ih

theorem mergeRel_topics (now : Int) (a : String) (t : PyVal) (tag : Int) (st : GraphState) :
    (mergeRel now a t tag st).topics = st.topics := by
  rw [mergeRel]
  split
  · split <;> rfl
  · rfl

theorem mergeRel_accounts (now : Int) (a : String) (t : PyVal) (tag : Int) (st : GraphState) :
    (mergeRel now a t tag st).accounts = st.accounts := by
  rw [mergeRel]
  split
  · split <;> rfl
  · rfl

theorem mergeRel_relTag_self (now : Int) (a : String) (t : PyVal) (tag : Int)
    (st : GraphState) (h1 : (lookupTopic st.topics t).isSome) (h2 : a ∈ st.accounts) :
    relTag? (mergeRel now a t tag st).rels a t = some tag := by
  rw [mergeRel, if_pos ⟨h1, h2⟩]
  by_cases hex : ∃ r ∈ st.rels, r.accountId = a ∧ r.topicId = t
  · rw [if_pos hex]
    exact relTag?_map_update st.rels a t tag hex
  · rw [if_neg hex]
    show relTag? (st.rels ++ [⟨a, t, now, tag⟩]) a t = some tag
    push_neg at hex
    rw [relTag?_append, relTag?_eq_none st.rels a t
      (fun r hr hc => (hex r hr hc.1) hc.2)]
    show relTag? [⟨a, t, now, tag⟩] a t = some tag
    rw [relTag?_cons, if_pos ⟨rfl, rfl⟩]

theorem mergeRel_relTag_other (now : Int) (a : String) (t : PyVal) (tag : Int)
    (st : GraphState) (a' : String) (t' : PyVal) (h : ¬(a' = a ∧ t' = t)) :
    relTag? (mergeRel now a t tag st).rels a' t' = relTag? st.rels a' t' := by
  rw [mergeRel]
  split
  · split
    · exact relTag?_map_update_other st.rels a t tag a' t' h
    · show relTag? (st.rels ++ [⟨a, t, now, tag⟩]) a' t' = relTag? st.rels a' t'
      rw [relTag?_append]
      cases hx : relTag? st.rels a' t' with
      | some z => rfl
      | none =>
        rw [relTag?_cons, if_neg (fun hc : a = a' ∧ t = t' => h ⟨hc.1.symm, hc.2.symm⟩)]
        rfl
  · rfl

/-! Transform lemmas. -/

theorem pyIntOk_ok (s : String) (h : pyIntOk s = true) : pyInt s = Except.ok (pyIntD s) := by
  cases hx : pyInt s with
  | ok z => simp [pyIntD, hx]
  | error e =>
    rw [pyIntOk, hx] at h
    simp at h

theorem countersOK_fields (attrs : StrDict) (h : countersOK attrs = true) :
    pyIntOk (dictGet attrs "SubscriptionsPending" "0") = true ∧
    pyIntOk (dictGet attrs "SubscriptionsConfirmed" "0") = true ∧
    pyIntOk (dictGet attrs "SubscriptionsDeleted" "0") = true := by
  rw [countersOK] at h
  rw [Bool.and_eq_true, Bool.and_eq_true] at h
  exact ⟨h.1.1, h.1.2, h.2⟩

/-- The item loop body succeeds exactly on the record `recordOf` describes,
whenever the ARN key is present and the counter strings parse. -/
theorem transformTopic_ok (attributes : List (String × AttrResponse)) (t : StrDict)
    (arn : String) (ha : dictFind? t "TopicArn" = some arn)
    (hc : countersOK (attrsOf attributes arn) = true) :
    transformTopic attributes t = Except.ok (recordOf attributes arn) := by
  obtain ⟨h1, h2, h3⟩ := countersOK_fields _ hc
  simp only [transformTopic, ha, pyIntOk_ok _ h1, pyIntOk_ok _ h2, pyIntOk_ok _ h3]
  rfl

theorem transform_sns_topics_nil (attributes : List (String × AttrResponse))
    (region : String) : transform_sns_topics [] attributes region = Except.ok [] := rfl

theorem transform_sns_topics_cons (t : StrDict) (rest : List StrDict)
    (attributes : List (String × AttrResponse)) (region : String) :
    transform_sns_topics (t :: rest) attributes region =
      match transformTopic attributes t with
      | Except.error e => Except.error e
      | Except.ok r =>
        match transform_sns_topics rest attributes region with
        | Except.error e => Except.error e
        | Except.ok rs => Except.ok (r :: rs) := rfl

/-- Full characterization of the transform on well-formed input: one
`recordOf` record per raw topic, in input order. -/
theorem transform_sns_topics_ok (topics : List StrDict)
    (attributes : List (String × AttrResponse)) (region : String)
    (h1 : ∀ t ∈ topics, (dictFind? t "TopicArn").isSome)
    (h2 : ∀ t ∈ topics, countersOK (attrsOf attributes (arnOf t)) = true) :
    transform_sns_topics topics attributes region =
      Except.ok (topics.map (fun t => recordOf attributes (arnOf t))) := by
  induction topics with
  | nil => rfl
  | cons t rest ih =>
    have hs : (dictFind? t "TopicArn").isSome := h1 t (List.mem_cons_self _ _)
    obtain ⟨arn, harn⟩ := Option.isSome_iff_exists.mp hs
    have harnOf : arnOf t = arn := by rw [arnOf, harn]; rfl
    rw [transform_sns_topics_cons,
      transformTopic_ok attributes t arn harn (harnOf ▸ h2 t (List.mem_cons_self _ _)),
      ih (fun t' ht' => h1 t' (List.mem_cons_of_mem _ ht'))
        (fun t' ht' => h2 t' (List.mem_cons_of_mem _ ht'))]
    rw [List.map_cons, harnOf]

theorem strFieldMatch (A : List (String × AttrResponse)) (arn k : String)
    (hk : dictFind? (recordOf A arn) k = some (PyVal.str (dictGet (attrsOf A arn) k ""))) :
    dictFind? (recordOf A arn) k =
      some (PyVal.str (match dictFind? (attrsOf A arn) k with
        | some s => s
        | none => "")) := by
  rw [hk, dictGet]
  cases dictFind? (attrsOf A arn) k <;> rfl

/-- C1 — For every list of raw topic identifiers (each raw topic carrying its
`TopicArn` and each referenced counter attribute parsing as an integer),
every attribute map and every region, `transform_sns_topics` returns exactly
one record per input identifier, in input order; the short name is the
substring after the last `:`; each subscription counter is the integer parse
of the attribute string when the key is present and `0` when absent; each
string field is the attribute value when present and `""` when absent. -/
theorem C1_transform_functional (topics : List StrDict)
    (attributes : List (String × AttrResponse)) (region : String)
    (h1 : ∀ t ∈ topics, (dictFind? t "TopicArn").isSome)
    (h2 : ∀ t ∈ topics, countersOK (attrsOf attributes (arnOf t)) = true) :
    ∃ recs, transform_sns_topics topics attributes region = Except.ok recs ∧
      recs.length = topics.length ∧
      ∀ i (hi : i < topics.length) (hr : i < recs.length) (arn : String),
        dictFind? (topics.get ⟨i, hi⟩) "TopicArn" = some arn →
        (dictFind? (recs.get ⟨i, hr⟩) "TopicArn" = some (PyVal.str arn) ∧
         dictFind? (recs.get ⟨i, hr⟩) "TopicName" =
           some (PyVal.str ((pySplit arn ':').getLastD "")) ∧
         (∀ k ∈ ["DisplayName", "Owner", "DeliveryPolicy", "EffectiveDeliveryPolicy",
                 "KmsMasterKeyId"],
           dictFind? (recs.get ⟨i, hr⟩) k =
             some (PyVal.str (match dictFind? (attrsOf attributes arn) k with
               | some s => s
               | none => ""))) ∧
         (∀ k ∈ ["SubscriptionsPending", "SubscriptionsConfirmed", "SubscriptionsDeleted"],
           ∃ z, dictFind? (recs.get ⟨i, hr⟩) k = some (PyVal.int z) ∧
             (match dictFind? (attrsOf attributes arn) k with
               | some s => pyInt s = Except.ok z
               | none => z = 0))) := by
  refine ⟨topics.map (fun t => recordOf attributes (arnOf t)),
    transform_sns_topics_ok topics attributes region h1 h2, by simp, ?_⟩
  intro i hi hr arn harn
  have hmem : topics.get ⟨i, hi⟩ ∈ topics := List.get_mem _ _ _
  have harnOf : arnOf (topics.get ⟨i, hi⟩) = arn := by
    rw [arnOf, harn]
    rfl
  have hrec : (topics.map (fun t => recordOf attributes (arnOf t))).get ⟨i, hr⟩ =
      recordOf attributes arn := by
    rw [List.get_eq_getElem, List.getElem_map, ← harnOf]
    rfl
  rw [hrec]
  have hc : countersOK (attrsOf attributes arn) = true := harnOf ▸ h2 _ hmem
  obtain ⟨hp1, hp2, hp3⟩ := countersOK_fields _ hc
  refine ⟨rfl, rfl, ?_, ?_⟩
  · intro k hk
    simp only [List.mem_cons, List.not_mem_nil, or_false] at hk
    rcases hk with rfl | rfl | rfl | rfl | rfl
    · exact strFieldMatch attributes arn "DisplayName" rfl
    · exact strFieldMatch attributes arn "Owner" rfl
    · exact strFieldMatch attributes arn "DeliveryPolicy" rfl
    · exact strFieldMatch attributes arn "EffectiveDeliveryPolicy" rfl
    · exact strFieldMatch attributes arn "KmsMasterKeyId" rfl
  · intro k hk
    simp only [List.mem_cons, List.not_mem_nil, or_false] at hk
    rcases hk with rfl | rfl | rfl
    · refine ⟨pyIntD (dictGet (attrsOf attributes arn) "SubscriptionsPending" "0"), rfl, ?_⟩
      cases hfound : dictFind? (attrsOf attributes arn) "SubscriptionsPending" with
      | some s =>
        have : dictGet (attrsOf attributes arn) "SubscriptionsPending" "0" = s := by
          rw [dictGet, hfound]
          rfl
        rw [this]
        exact pyIntOk_ok s (this ▸ hp1)
      | none =>
        have : dictGet (attrsOf attributes arn) "SubscriptionsPending" "0" = "0" := by
          rw [dictGet, hfound]
          rfl
        rw [this]
        rfl
    · refine ⟨pyIntD (dictGet (attrsOf attributes arn) "SubscriptionsConfirmed" "0"), rfl, ?_⟩
      cases hfound : dictFind? (attrsOf attributes arn) "SubscriptionsConfirmed" with
      | some s =>
        have : dictGet (attrsOf attributes arn) "SubscriptionsConfirmed" "0" = s := by
          rw [dictGet, hfound]
          rfl
        rw [this]
        exact pyIntOk_ok s (this ▸ hp2)
      | none =>
        have : dictGet (attrsOf attributes arn) "SubscriptionsConfirmed" "0" = "0" := by
          rw [dictGet, hfound]
          rfl
        rw [this]
        rfl
    · refine ⟨pyIntD (dictGet (attrsOf attributes arn) "SubscriptionsDeleted" "0"), rfl, ?_⟩
      cases hfound : dictFind? (attrsOf attributes arn) "SubscriptionsDeleted" with
      | some s =>
        have : dictGet (attrsOf attributes arn) "SubscriptionsDeleted" "0" = s := by
          rw [dictGet, hfound]
          rfl
        rw [this]
        exact pyIntOk_ok s (this ▸ hp3)
      | none =>
        have : dictGet (attrsOf attributes arn) "SubscriptionsDeleted" "0" = "0" := by
          rw [dictGet, hfound]
          rfl
        rw [this]
        rfl

/-- C1 witness: the theorem applied to the concrete fixture topics. -/
theorem C1_transform_functional_witness :
    (∀ t ∈ cTopics, (dictFind? t "TopicArn").isSome) ∧
    (∀ t ∈ cTopics, countersOK (attrsOf cAttrs (arnOf t)) = true) ∧
    (∃ recs, transform_sns_topics cTopics cAttrs "us-east-1" = Except.ok recs ∧
      recs.length = cTopics.length ∧
      ∀ i (hi : i < cTopics.length) (hr : i < recs.length) (arn : String),
        dictFind? (cTopics.get ⟨i, hi⟩) "TopicArn" = some arn →
        (dictFind? (recs.get ⟨i, hr⟩) "TopicArn" = some (PyVal.str arn) ∧
         dictFind? (recs.get ⟨i, hr⟩) "TopicName" =
           some (PyVal.str ((pySplit arn ':').getLastD "")) ∧
         (∀ k ∈ ["DisplayName", "Owner", "DeliveryPolicy", "EffectiveDeliveryPolicy",
                 "KmsMasterKeyId"],
           dictFind? (recs.get ⟨i, hr⟩) k =
             some (PyVal.str (match dictFind? (attrsOf cAttrs arn) k with
               | some s => s
               | none => ""))) ∧
         (∀ k ∈ ["SubscriptionsPending", "SubscriptionsConfirmed", "SubscriptionsDeleted"],
           ∃ z, dictFind? (recs.get ⟨i, hr⟩) k = some (PyVal.int z) ∧
             (match dictFind? (attrsOf cAttrs arn) k with
               | some s => pyInt s = Except.ok z
               | none => z = 0)))) :=
  ⟨by decide, by decide,
    C1_transform_functional cTopics cAttrs "us-east-1" (by decide) (by decide)⟩

theorem recordOf_keys (A : List (String × AttrResponse)) (arn : String) :
    (recordOf A arn).map Prod.fst = snsRecordKeys := rfl

theorem recordOf_no_region (A : List (String × AttrResponse)) (arn : String) :
    dictFind? (recordOf A arn) "Region" = none := rfl

/-- C4 counterexample — on the concrete fixture input the transform yields a
non-empty record list whose first record has no `Region` key at all: the
claim that every post-transform record contains the region of residence is
false on the code (`transform_sns_topics` never writes a `Region` field; the
region reaches the graph only through the loader's kwargs). -/
theorem C4_counterexample :
    transform_sns_topics cTopics cAttrs "us-east-1" = Except.ok cTransformed ∧
    cTransformed.length = 2 ∧
    dictFind? (cTransformed.headD []) "Region" = none := ⟨rfl, rfl, rfl⟩

/-- C4 as amended — every record produced by `transform_sns_topics` contains
exactly the identifier, short name, display name, owner, the three
subscription counters, the two policy documents and the encryption-key
reference, and does *not* contain the region of residence: the region is
supplied separately to the loader as a call-time kwarg. -/
theorem C4_record_shape (topics : List StrDict)
    (attributes : List (String × AttrResponse)) (region : String)
    (h1 : ∀ t ∈ topics, (dictFind? t "TopicArn").isSome)
    (h2 : ∀ t ∈ topics, countersOK (attrsOf attributes (arnOf t)) = true) :
    ∃ recs, transform_sns_topics topics attributes region = Except.ok recs ∧
      ∀ r ∈ recs, r.map Prod.fst = snsRecordKeys ∧ dictFind? r "Region" = none := by
  refine ⟨topics.map (fun t => recordOf attributes (arnOf t)),
    transform_sns_topics_ok topics attributes region h1 h2, ?_⟩
  intro r hr
  obtain ⟨t, _, rfl⟩ := List.mem_map.mp hr
  exact ⟨recordOf_keys _ _, recordOf_no_region _ _⟩

/-- C4 witness: the amended record-shape theorem at the fixture input. -/
theorem C4_record_shape_witness :
    (∀ t ∈ cTopics, (dictFind? t "TopicArn").isSome) ∧
    (∀ t ∈ cTopics, countersOK (attrsOf cAttrs (arnOf t)) = true) ∧
    (∃ recs, transform_sns_topics cTopics cAttrs "us-east-1" = Except.ok recs ∧
      ∀ r ∈ recs, r.map Prod.fst = snsRecordKeys ∧ dictFind? r "Region" = none) :=
  ⟨by decide, by decide, C4_record_shape cTopics cAttrs "us-east-1" (by decide) (by decide)⟩

/-- C8 counterexample — a record whose identifier has no `:` separator does
*not* fault: `'invalid-arn'.split(':')[-1]` is the whole identifier, so the
transform succeeds and uses it as the short name.  This falsifies the half of
the claim asserting that a separator-less identifier propagates a fault. -/
theorem C8_counterexample :
    transform_sns_topics cNoSepTopics [] "us-east-1" =
      Except.ok [recordOf [] "invalid-arn"] ∧
    dictFind? (recordOf [] "invalid-arn") "TopicName" =
      some (PyVal.str "invalid-arn") := ⟨rfl, rfl⟩

/-- C8 as amended — a raw record lacking the `TopicArn` key makes
`transform_sns_topics` propagate an unhandled fault (`KeyError`), but an
identifier merely lacking the `:` separator is handled without fault: the
short name is then the whole identifier. -/
theorem C8_malformed_records (topic : StrDict) (attributes : List (String × AttrResponse))
    (region : String) (arn : String) :
    (dictFind? topic "TopicArn" = none →
      ∀ rest, transform_sns_topics (topic :: rest) attributes region =
        Except.error "KeyError: TopicArn") ∧
    (dictFind? topic "TopicArn" = some arn →
      countersOK (attrsOf attributes arn) = true →
      transformTopic attributes topic = Except.ok (recordOf attributes arn) ∧
      dictFind? (recordOf attributes arn) "TopicName" =
        some (PyVal.str ((pySplit arn ':').getLastD ""))) := by
  constructor
  · intro hnone rest
    rw [transform_sns_topics_cons, transformTopic, hnone]
  · intro ha hc
    exact ⟨transformTopic_ok attributes topic arn ha hc, rfl⟩

/-- C8 witness: both halves of the amended theorem at concrete inputs — a
record without the identifier key faults, a separator-less identifier is
transformed with itself as short name. -/
theorem C8_malformed_records_witness :
    (dictFind? [("Foo", "x")] "TopicArn" = none ∧
      transform_sns_topics [[("Foo", "x")]] [] "us-east-1" =
        Except.error "KeyError: TopicArn") ∧
    (dictFind? [("TopicArn", "invalid-arn")] "TopicArn" = some "invalid-arn" ∧
      countersOK (attrsOf [] "invalid-arn") = true ∧
      transformTopic [] [("TopicArn", "invalid-arn")] =
        Except.ok (recordOf [] "invalid-arn") ∧
      dictFind? (recordOf [] "invalid-arn") "TopicName" =
        some (PyVal.str ((pySplit "invalid-arn" ':').getLastD ""))) :=
  ⟨⟨by decide,
    (C8_malformed_records [("Foo", "x")] [] "us-east-1" "").1 (by decide) []⟩,
   ⟨by decide, by decide,
    (C8_malformed_records [("TopicArn", "invalid-arn")] [] "us-east-1" "invalid-arn").2
      (by decide) (by decide)⟩⟩

/-- C7 — for every topic ARN, if the underlying attribute fetch raises, the
function logs a warning and returns `None` instead of propagating the error;
on success it returns the fetched attribute map unchanged and logs nothing. -/
theorem C7_get_topic_attributes (topic_arn : String) :
    (∀ resp, get_topic_attributes topic_arn (Except.ok resp) = (some resp, [])) ∧
    (∀ e, (get_topic_attributes topic_arn (Except.error e)).1 = none ∧
      (get_topic_attributes topic_arn (Except.error e)).2 =
        ["Error getting attributes for SNS topic " ++ topic_arn ++ ": " ++ e]) :=
  ⟨fun _ => rfl, fun _ => ⟨rfl, rfl⟩⟩

/-- C9 — `get_neo4j_version` takes the first two dot-separated segments of
the version string as major and minor and returns the number `major.minor`
(so `"3.5.12"` yields `3.5`); that number is at or above the `4.0` threshold
exactly when the major segment is at least 4, and both `compatible_load` and
`cleanup_sns` select the modern path exactly in that case. -/
theorem C9_version_parse (s a b : String) (M m : Nat)
    (h1 : (pySplit s '.').take 2 = [a, b])
    (h2 : pyNatDigits a.data = some M)
    (h3 : pyNatDigits b.data = some m)
    (h4 : m < 10 ^ b.data.length) :
    get_neo4j_version s =
      Except.ok ((M : ℚ) + (m : ℚ) / ((10 : ℚ) ^ b.data.length)) ∧
    (((4 : ℚ) ≤ (M : ℚ) + (m : ℚ) / ((10 : ℚ) ^ b.data.length)) ↔ 4 ≤ M) ∧
    (∀ now kw data st,
      compatible_load ((M : ℚ) + (m : ℚ) / ((10 : ℚ) ^ b.data.length)) now kw data st =
        if 4 ≤ M then modernLoad now kw data st else legacyLoad now kw data st) ∧
    (∀ p st,
      cleanup_sns ((M : ℚ) + (m : ℚ) / ((10 : ℚ) ^ b.data.length)) p st =
        if 4 ≤ M then modernCleanup p st else legacyCleanup p st) := by
  have hpow : (0 : ℚ) < (10 : ℚ) ^ b.data.length := by positivity
  have hfrac0 : (0 : ℚ) ≤ (m : ℚ) / ((10 : ℚ) ^ b.data.length) := by positivity
  have hfrac1 : (m : ℚ) / ((10 : ℚ) ^ b.data.length) < 1 := by
    rw [div_lt_one hpow]
    calc (m : ℚ) < ((10 ^ b.data.length : Nat) : ℚ) := by exact_mod_cast h4
    _ = (10 : ℚ) ^ b.data.length := by push_cast; ring
  have hiff : ((4 : ℚ) ≤ (M : ℚ) + (m : ℚ) / ((10 : ℚ) ^ b.data.length)) ↔ 4 ≤ M := by
    constructor
    · intro hle
      by_contra hM
      push_neg at hM
      have hM3 : (M : ℚ) ≤ 3 := by
        have : M ≤ 3 := Nat.lt_succ_iff.mp hM
        exact_mod_cast this
      linarith
    · intro hM
      have : (4 : ℚ) ≤ (M : ℚ) := by exact_mod_cast hM
      linarith
  refine ⟨?_, hiff, ?_, ?_⟩
  · simp only [get_neo4j_version, h1, pyFloatOfParts, h2, h3]
  · intro now kw data st
    rw [compatible_load]
    by_cases hM : 4 ≤ M
    · rw [if_pos (hiff.mpr hM), if_pos hM]
    · rw [if_neg (fun hh => hM (hiff.mp hh)), if_neg hM]
  · intro p st
    rw [cleanup_sns]
    by_cases hM : 4 ≤ M
    · rw [if_pos (hiff.mpr hM), if_pos hM]
    · rw [if_neg (fun hh => hM (hiff.mp hh)), if_neg hM]

/-- C9 witness: the parse theorem at the version string `"3.5.12"`. -/
theorem C9_version_parse_witness :
    ((pySplit "3.5.12" '.').take 2 = ["3", "5"] ∧
     pyNatDigits "3".data = some 3 ∧
     pyNatDigits "5".data = some 5 ∧
     5 < 10 ^ "5".data.length) ∧
    (get_neo4j_version "3.5.12" =
      Except.ok (((3 : Nat) : ℚ) + ((5 : Nat) : ℚ) / ((10 : ℚ) ^ "5".data.length)) ∧
    (((4 : ℚ) ≤ ((3 : Nat) : ℚ) + ((5 : Nat) : ℚ) / ((10 : ℚ) ^ "5".data.length)) ↔
      4 ≤ (3 : Nat)) ∧
    (∀ now kw data st,
      compatible_load (((3 : Nat) : ℚ) + ((5 : Nat) : ℚ) / ((10 : ℚ) ^ "5".data.length))
          now kw data st =
        if 4 ≤ (3 : Nat) then modernLoad now kw data st else legacyLoad now kw data st) ∧
    (∀ p st,
      cleanup_sns (((3 : Nat) : ℚ) + ((5 : Nat) : ℚ) / ((10 : ℚ) ^ "5".data.length)) p st =
        if 4 ≤ (3 : Nat) then modernCleanup p st else legacyCleanup p st)) :=
  ⟨⟨by decide, by decide, by decide, by decide⟩,
   C9_version_parse "3.5.12" "3" "5" 3 5 (by decide) (by decide) (by decide) (by decide)⟩

/-! Load-path equivalence. -/

theorem legacyLoad_nil (now : Int) (kw : LoadKwargs) (st : GraphState) :
    legacyLoad now kw [] st = Except.ok st := rfl

theorem legacyLoad_cons (now : Int) (kw : LoadKwargs) (item : PyDict)
    (rest : List PyDict) (st : GraphState) :
    legacyLoad now kw (item :: rest) st =
      match legacyLoadItem now kw st item with
      | Except.error e => Except.error e
      | Except.ok st1 => legacyLoad now kw rest st1 := rfl

theorem modernLoad_nil (now : Int) (kw : LoadKwargs) (st : GraphState) :
    modernLoad now kw [] st = Except.ok st := rfl

theorem modernLoad_cons (now : Int) (kw : LoadKwargs) (item : PyDict)
    (rest : List PyDict) (st : GraphState) :
    modernLoad now kw (item :: rest) st =
      match modernLoadItem now kw st item with
      | Except.error e => Except.error e
      | Except.ok st1 => modernLoad now kw rest st1 := rfl

/-- With a truthy account id and freshness tag, one legacy iteration performs
exactly the merge of the schema-driven loader. -/
theorem legacyLoadItem_eq_modern (now : Int) (kw : LoadKwargs) (st : GraphState)
    (item : PyDict) (ha : kw.AWS_ACCOUNT_ID ≠ "") (ht : kw.lastupdated ≠ 0) :
    legacyLoadItem now kw st item = modernLoadItem now kw st item := by
  simp only [legacyLoadItem, modernLoadItem, legacyNodeProps_eq_modern]
  cases dictFind? (modernNodeProps kw item) "id" with
  | none => rfl
  | some idv => exact if_pos ⟨ha, ht⟩

theorem legacyLoad_eq_modern (now : Int) (kw : LoadKwargs) (data : List PyDict)
    (st : GraphState) (ha : kw.AWS_ACCOUNT_ID ≠ "") (ht : kw.lastupdated ≠ 0) :
    legacyLoad now kw data st = modernLoad now kw data st := by
  induction data generalizing st with
  | nil => rfl
  | cons item rest ih =>
    rw [legacyLoad_cons, modernLoad_cons, legacyLoadItem_eq_modern now kw st item ha ht]
    cases modernLoadItem now kw st item with
    | error e => rfl
    | ok st1 => exact ih st1

/-- C2 as amended — for identical records, region, account id and freshness
tag, the legacy direct-query path (version below 4.0) and the modern
schema-driven path (version at or above 4.0) of `compatible_load` produce
identical final graph states, provided the account id is non-empty and the
freshness tag is non-zero (both Python-truthy); with a falsy tag or account
id the legacy path skips the edge merge and the two paths diverge. -/
theorem C2_version_equivalence (v1 v2 : ℚ) (now : Int) (kw : LoadKwargs)
    (data : List PyDict) (st : GraphState)
    (hv1 : v1 < 4) (hv2 : 4 ≤ v2)
    (ha : kw.AWS_ACCOUNT_ID ≠ "") (ht : kw.lastupdated ≠ 0) :
    compatible_load v1 now kw data st = compatible_load v2 now kw data st := by
  rw [compatible_load, compatible_load, if_neg (not_le.mpr hv1), if_pos hv2]
  exact legacyLoad_eq_modern now kw data st ha ht

/-- C2 witness: equivalence of the two paths at concrete non-degenerate
inputs (account `000000000000`, tag 123456789, one record). -/
theorem C2_version_equivalence_witness :
    ((3 : ℚ) < 4 ∧ (4 : ℚ) ≤ 4 ∧
      (LoadKwargs.mk "us-east-1" 123456789 "000000000000").AWS_ACCOUNT_ID ≠ "" ∧
      (LoadKwargs.mk "us-east-1" 123456789 "000000000000").lastupdated ≠ 0) ∧
    compatible_load 3 0 ⟨"us-east-1", 123456789, "000000000000"⟩ [cItem] cStAcct =
      compatible_load 4 0 ⟨"us-east-1", 123456789, "000000000000"⟩ [cItem] cStAcct :=
  ⟨⟨by decide, by decide, by decide, by decide⟩,
   C2_version_equivalence 3 4 0 ⟨"us-east-1", 123456789, "000000000000"⟩ [cItem] cStAcct
     (by decide) (by decide) (by decide) (by decide)⟩

/-- C2 counterexample — with freshness tag `0` (a legitimate integer tag,
but Python-falsy) the two paths disagree on identical inputs: the legacy
path never runs the edge merge (`if aws_account_id and update_tag`), so it
creates no account edge, while the modern path creates the edge.  This
falsifies the unqualified equivalence claim. -/
theorem C2_counterexample :
    compatible_load 3 0 cKwZero [cItem] cStAcct = Except.ok cLegacyZeroSt ∧
    compatible_load 4 0 cKwZero [cItem] cStAcct = Except.ok cModernZeroSt ∧
    cLegacyZeroSt.topics = cModernZeroSt.topics ∧
    cLegacyZeroSt.rels = [] ∧
    cModernZeroSt.rels =
      [⟨"000000000000", PyVal.str "arn:aws:sns:r:a:t1", 0, 0⟩] :=
  ⟨rfl, rfl, rfl, rfl, rfl⟩

/-! Load contract. -/

theorem modernLoadItem_ok (now : Int) (kw : LoadKwargs) (st : GraphState) (item : PyDict)
    (idv : PyVal) (h : dictFind? item "TopicArn" = some idv) :
    modernLoadItem now kw st item = Except.ok
      (mergeRel now kw.AWS_ACCOUNT_ID idv kw.lastupdated
        { st with topics := mergeNodeList now idv (modernNodeProps kw item) st.topics }) := by
  simp only [modernLoadItem, modernNodeProps_id, h]

theorem modernLoadItem_ok_inv (now : Int) (kw : LoadKwargs) (st : GraphState)
    (item : PyDict) (st1 : GraphState)
    (h : modernLoadItem now kw st item = Except.ok st1) :
    ∃ idv, dictFind? item "TopicArn" = some idv ∧
      st1 = mergeRel now kw.AWS_ACCOUNT_ID idv kw.lastupdated
        { st with topics := mergeNodeList now idv (modernNodeProps kw item) st.topics } := by
  cases hid : dictFind? item "TopicArn" with
  | none =>
    rw [modernLoadItem] at h
    rw [show dictFind? (modernNodeProps kw item) "id" = none from
      (modernNodeProps_id kw item).trans hid] at h
    cases h
  | some idv =>
    rw [modernLoadItem_ok now kw st item idv hid] at h
    exact ⟨idv, rfl, (Except.ok.inj h).symm⟩

theorem modernLoad_preserves (now : Int) (kw : LoadKwargs) (data : List PyDict) :
    ∀ (st st' : GraphState), modernLoad now kw data st = Except.ok st' →
    ∀ v : PyVal, (∀ item ∈ data, dictFind? item "TopicArn" ≠ some v) →
    st'.accounts = st.accounts ∧
    lookupTopic st'.topics v = lookupTopic st.topics v ∧
    ∀ a : String, relTag? st'.rels a v = relTag? st.rels a v := by
  induction data with
  | nil =>
    intro st st' hok v _
    rw [modernLoad_nil] at hok
    cases hok
    exact ⟨rfl, rfl, fun a => rfl⟩
  | cons item rest ih =>
    intro st st' hok v hne
    rw [modernLoad_cons] at hok
    cases hstep : modernLoadItem now kw st item with
    | error e => rw [hstep] at hok; cases hok
    | ok st1 =>
      rw [hstep] at hok
      obtain ⟨idv, hid, hst1⟩ := modernLoadItem_ok_inv now kw st item st1 hstep
      have hvne : v ≠ idv := fun he =>
        hne item (List.mem_cons_self _ _) (he ▸ hid)
      obtain ⟨hacc, htop, hrel⟩ :=
        ih st1 st' hok v (fun it hit => hne it (List.mem_cons_of_mem _ hit))
      subst hst1
      refine ⟨hacc.trans ((mergeRel_accounts ..).trans rfl), ?_, ?_⟩
      · rw [htop, mergeRel_topics]
        exact mergeNodeList_lookup_other now idv _ st.topics v hvne
          (modernNodeProps_keys_nodup kw item)
          ((modernNodeProps_id kw item).trans hid)
      · intro a
        rw [hrel a, mergeRel_relTag_other now _ idv _ _ a v
          (fun hc => hvne hc.2)]

/-- The schema-driven load succeeds on records that carry their identifier
and establishes the upsert contract for each of them. -/
theorem modernLoad_contract (now : Int) (kw : LoadKwargs) (data : List PyDict)
    (st : GraphState)
    (harn : ∀ item ∈ data, (dictFind? item "TopicArn").isSome)
    (hnodup : (data.map (fun item => dictFind? item "TopicArn")).Nodup) :
    ∃ st', modernLoad now kw data st = Except.ok st' ∧ st'.accounts = st.accounts ∧
      ∀ item ∈ data, ∀ idv, dictFind? item "TopicArn" = some idv →
        (∃ node, lookupTopic st'.topics idv = some node ∧
          (∀ k v, dictFind? (modernNodeProps kw item) k = some v →
            dictFind? node k = some v)) ∧
        (kw.AWS_ACCOUNT_ID ∈ st.accounts →
          relTag? st'.rels kw.AWS_ACCOUNT_ID idv = some kw.lastupdated) := by
  induction data generalizing st with
  | nil => exact ⟨st, rfl, rfl, fun item hit => absurd hit (List.not_mem_nil _)⟩
  | cons item rest ih =>
    obtain ⟨idv0, hid0⟩ :=
      Option.isSome_iff_exists.mp (harn item (List.mem_cons_self _ _))
    set P := modernNodeProps kw item with hP
    set stMid : GraphState :=
      { st with topics := mergeNodeList now idv0 P st.topics } with hstMid
    set st1 := mergeRel now kw.AWS_ACCOUNT_ID idv0 kw.lastupdated stMid with hst1
    have hstep : modernLoadItem now kw st item = Except.ok st1 :=
      modernLoadItem_ok now kw st item idv0 hid0
    rw [List.map_cons, List.nodup_cons] at hnodup
    obtain ⟨st', hok', hacc', hrest⟩ :=
      ih st1 (fun it hit => harn it (List.mem_cons_of_mem _ hit)) hnodup.2
    have hokAll : modernLoad now kw (item :: rest) st = Except.ok st' := by
      rw [modernLoad_cons, hstep]
      exact hok'
    have hacc1 : st1.accounts = st.accounts := by
      rw [hst1, mergeRel_accounts]
    have hprev : ∀ it ∈ rest, dictFind? it "TopicArn" ≠ some idv0 := by
      intro it hit he
      exact hnodup.1 (hid0 ▸ (List.mem_map.mpr ⟨it, hit, he⟩))
    obtain ⟨hpacc, hptop, hprel⟩ := modernLoad_preserves now kw rest st1 st' hok' idv0 hprev
    have hlook1 : lookupTopic st1.topics idv0 =
        some (dictSetMany
          ((lookupTopic st.topics idv0).getD
            [("id", idv0), ("firstseen", PyVal.int now)]) P) := by
      rw [hst1, mergeRel_topics, hstMid]
      exact mergeNodeList_lookup_self now idv0 P st.topics
        (modernNodeProps_keys_nodup kw item) ((modernNodeProps_id kw item).trans hid0)
    refine ⟨st', hokAll, hacc'.trans hacc1, ?_⟩
    intro it hit idv hidv
    rcases List.mem_cons.mp hit with rfl | hit'
    · have hsame : idv = idv0 := Option.some.inj (hidv.symm.trans hid0)
      subst hsame
      constructor
      · refine ⟨dictSetMany
          ((lookupTopic st.topics idv).getD
            [("id", idv), ("firstseen", PyVal.int now)]) P,
          by rw [hptop, hlook1], ?_⟩
        intro k v hv
        exact modernNodeProps_agrees kw it _ k v hv
      · intro hmem
        rw [hprel kw.AWS_ACCOUNT_ID, hst1]
        refine mergeRel_relTag_self now kw.AWS_ACCOUNT_ID idv kw.lastupdated stMid ?_ ?_
        · rw [hstMid]
          show (lookupTopic (mergeNodeList now idv P st.topics) idv).isSome
          rw [mergeNodeList_lookup_self now idv P st.topics
            (modernNodeProps_keys_nodup kw it) ((modernNodeProps_id kw it).trans hidv)]
          rfl
        · rw [hstMid]
          exact hmem
    · have := hrest it hit' idv hidv
      refine ⟨this.1, fun hmem => this.2 ?_⟩
      rw [hacc1]
      exact hmem

/-- C3 as amended — after `load_sns_topics` completes on records with
pairwise-distinct present identifiers, and provided the account node exists
and the account id and freshness tag are Python-truthy (non-empty, non-zero),
every record has a node keyed by its identifier whose available schema
fields, `region` and freshness tag are set as supplied, and the account node
has a `RESOURCE` edge to it carrying the freshness tag.  (Without the account
node, or with a falsy tag on the legacy path, no edge is produced.) -/
theorem C3_load_contract (v : ℚ) (now : Int) (data : List PyDict)
    (region aws_account_id : String) (update_tag : Int) (st : GraphState)
    (harn : ∀ item ∈ data, (dictFind? item "TopicArn").isSome)
    (hnodup : (data.map (fun item => dictFind? item "TopicArn")).Nodup)
    (hacct : aws_account_id ∈ st.accounts)
    (ha : aws_account_id ≠ "") (ht : update_tag ≠ 0) :
    ∃ st', load_sns_topics v now data region aws_account_id update_tag st = Except.ok st' ∧
      ∀ item ∈ data, ∀ idv, dictFind? item "TopicArn" = some idv →
        ∃ node, lookupTopic st'.topics idv = some node ∧
          dictFind? node "id" = some idv ∧
          (∀ pname src, (pname, src) ∈ modernPropertyMap →
            ∀ w, itemLookup ⟨region, update_tag, aws_account_id⟩ item src = some w →
              dictFind? node pname = some w) ∧
          dictFind? node "region" = some (PyVal.str region) ∧
          dictFind? node "lastupdated" = some (PyVal.int update_tag) ∧
          relTag? st'.rels aws_account_id idv = some update_tag := by
  set kw : LoadKwargs := ⟨region, update_tag, aws_account_id⟩ with hkw
  have hdisp : load_sns_topics v now data region aws_account_id update_tag st =
      modernLoad now kw data st := by
    rw [load_sns_topics, compatible_load]
    split
    · rfl
    · exact legacyLoad_eq_modern now kw data st ha ht
  obtain ⟨st', hok, _, hitems⟩ := modernLoad_contract now kw data st harn hnodup
  refine ⟨st', hdisp.trans hok, ?_⟩
  intro item hitem idv hidv
  obtain ⟨⟨node, hnode, hagree⟩, hrel⟩ := hitems item hitem idv hidv
  refine ⟨node, hnode, ?_, ?_, ?_, ?_, hrel hacct⟩
  · apply hagree
    rw [modernNodeProps_id]
    exact hidv
  · intro pname src hspec w hw
    apply hagree
    rw [modernNodeProps_find? kw item pname src hspec]
    exact hw
  · apply hagree
    exact modernNodeProps_region kw item
  · apply hagree
    exact modernNodeProps_lastupdated kw item

/-- C3 witness: the contract at one concrete record, with the account node
present and a truthy tag. -/
theorem C3_load_contract_witness :
    ((∀ item ∈ [cItem], (dictFind? item "TopicArn").isSome) ∧
     ([cItem].map (fun item => dictFind? item "TopicArn")).Nodup ∧
     "000000000000" ∈ cStAcct.accounts ∧
     "000000000000" ≠ "" ∧ (123456789 : Int) ≠ 0) ∧
    (∃ st', load_sns_topics 3 0 [cItem] "us-east-1" "000000000000" 123456789 cStAcct =
        Except.ok st' ∧
      ∀ item ∈ [cItem], ∀ idv, dictFind? item "TopicArn" = some idv →
        ∃ node, lookupTopic st'.topics idv = some node ∧
          dictFind? node "id" = some idv ∧
          (∀ pname src, (pname, src) ∈ modernPropertyMap →
            ∀ w, itemLookup ⟨"us-east-1", 123456789, "000000000000"⟩ item src = some w →
              dictFind? node pname = some w) ∧
          dictFind? node "region" = some (PyVal.str "us-east-1") ∧
          dictFind? node "lastupdated" = some (PyVal.int 123456789) ∧
          relTag? st'.rels "000000000000" idv = some 123456789) :=
  ⟨⟨by decide, by decide, by decide, by decide, by decide⟩,
   C3_load_contract 3 0 [cItem] "us-east-1" "000000000000" 123456789 cStAcct
     (by decide) (by decide) (by decide) (by decide) (by decide)⟩

/-- C3 counterexample — on a graph that does not contain the account node,
with freshness tag `0` and the legacy store version, the upsert creates the
topic node but produces no account edge at all, falsifying the unqualified
claim that an edge keyed by the account id always exists afterwards. -/
theorem C3_counterexample :
    load_sns_topics 3 0 [cItem] "us-east-1" "000000000000" 0 ⟨[], [], []⟩ =
      Except.ok cNoAcctSt ∧
    cNoAcctSt.topics ≠ [] ∧
    cNoAcctSt.rels = [] := ⟨rfl, by decide, rfl⟩

/-! Idempotence machinery. -/

theorem dictFind?_eq_of_mem_nodup {d : PyDict} {k : String} {v : PyVal}
    (hnd : (d.map Prod.fst).Nodup) (hmem : (k, v) ∈ d) : dictFind? d k = some v := by
  induction d with
  | nil => simp at hmem
  | cons kv rest ih =>
    obtain ⟨k0, v0⟩ := kv
    simp only [List.map_cons, List.nodup_cons] at hnd
    rcases List.mem_cons.mp hmem with h | h
    · cases h
      rw [dictFind?_cons, if_pos rfl]
    · have hk : k0 ≠ k := by
        intro he
        exact hnd.1 (he ▸ (List.mem_map.mpr ⟨(k, v), h, rfl⟩))
      rw [dictFind?_cons, if_neg hk]
      exact ih hnd.2 h

theorem mergeRel_exists_self (now : Int) (a : String) (t : PyVal) (tag : Int)
    (st : GraphState) (h1 : (lookupTopic st.topics t).isSome) (h2 : a ∈ st.accounts) :
    ∃ r ∈ (mergeRel now a t tag st).rels, r.accountId = a ∧ r.topicId = t := by
  rw [mergeRel, if_pos ⟨h1, h2⟩]
  by_cases hex : ∃ r ∈ st.rels, r.accountId = a ∧ r.topicId = t
  · rw [if_pos hex]
    obtain ⟨r, hr, hm⟩ := hex
    refine ⟨if r.accountId = a ∧ r.topicId = t then { r with lastupdated := tag } else r,
      List.mem_map.mpr ⟨r, hr, rfl⟩, ?_⟩
    rw [if_pos hm]
    exact hm
  · rw [if_neg hex]
    exact ⟨⟨a, t, now, tag⟩, List.mem_append.mpr (Or.inr (List.mem_singleton.mpr rfl)),
      rfl, rfl⟩

theorem mergeRel_settles (now : Int) (a : String) (t : PyVal) (tag : Int)
    (st : GraphState) (h1 : (lookupTopic st.topics t).isSome) (h2 : a ∈ st.accounts) :
    ∀ r ∈ (mergeRel now a t tag st).rels,
      r.accountId = a → r.topicId = t → r.lastupdated = tag := by
  rw [mergeRel, if_pos ⟨h1, h2⟩]
  by_cases hex : ∃ r ∈ st.rels, r.accountId = a ∧ r.topicId = t
  · rw [if_pos hex]
    intro r hr hra hrt
    obtain ⟨r0, hr0, hupd⟩ := List.mem_map.mp hr
    by_cases hm : r0.accountId = a ∧ r0.topicId = t
    · rw [if_pos hm] at hupd
      rw [← hupd]
    · rw [if_neg hm] at hupd
      exact absurd ⟨hupd ▸ hra, hupd ▸ hrt⟩ hm
  · rw [if_neg hex]
    intro r hr hra hrt
    rcases List.mem_append.mp hr with hr | hr
    · push_neg at hex
      exact absurd hrt (hex r hr hra)
    · rw [List.mem_singleton.mp hr]

theorem mergeRel_preserves_exists (now : Int) (a' : String) (t' : PyVal) (tag : Int)
    (st : GraphState) (a : String) (t : PyVal)
    (h : ∃ r ∈ st.rels, r.accountId = a ∧ r.topicId = t) :
    ∃ r ∈ (mergeRel now a' t' tag st).rels, r.accountId = a ∧ r.topicId = t := by
  rw [mergeRel]
  split
  · split
    · obtain ⟨r, hr, hm⟩ := h
      refine ⟨if r.accountId = a' ∧ r.topicId = t' then { r with lastupdated := tag } else r,
        List.mem_map.mpr ⟨r, hr, rfl⟩, ?_⟩
      by_cases hc : r.accountId = a' ∧ r.topicId = t'
      · rw [if_pos hc]
        exact hm
      · rw [if_neg hc]
        exact hm
    · obtain ⟨r, hr, hm⟩ := h
      exact ⟨r, List.mem_append.mpr (Or.inl hr), hm⟩
  · exact h

theorem mergeRel_preserves_settled (now : Int) (a' : String) (t' : PyVal) (tag : Int)
    (st : GraphState) (a : String) (t : PyVal)
    (h : ∀ r ∈ st.rels, r.accountId = a → r.topicId = t → r.lastupdated = tag) :
    ∀ r ∈ (mergeRel now a' t' tag st).rels,
      r.accountId = a → r.topicId = t → r.lastupdated = tag := by
  rw [mergeRel]
  split
  · split
    · intro r hr hra hrt
      obtain ⟨r0, hr0, hupd⟩ := List.mem_map.mp hr
      by_cases hc : r0.accountId = a' ∧ r0.topicId = t'
      · rw [if_pos hc] at hupd
        rw [← hupd]
      · rw [if_neg hc] at hupd
        exact h r (hupd ▸ hr0) hra hrt
    · intro r hr hra hrt
      rcases List.mem_append.mp hr with hr | hr
      · exact h r hr hra hrt
      · rw [List.mem_singleton.mp hr]
  · exact h

theorem modernLoad_preserves_relset (now : Int) (kw : LoadKwargs) (data : List PyDict) :
    ∀ (st st' : GraphState), modernLoad now kw data st = Except.ok st' →
    ∀ (a : String) (t : PyVal),
      ((∃ r ∈ st.rels, r.accountId = a ∧ r.topicId = t) →
        ∃ r ∈ st'.rels, r.accountId = a ∧ r.topicId = t) ∧
      ((∀ r ∈ st.rels, r.accountId = a → r.topicId = t →
          r.lastupdated = kw.lastupdated) →
        ∀ r ∈ st'.rels, r.accountId = a → r.topicId = t →
          r.lastupdated = kw.lastupdated) := by
  induction data with
  | nil =>
    intro st st' hok a t
    rw [modernLoad_nil] at hok
    cases hok
    exact ⟨id, id⟩
  | cons item rest ih =>
    intro st st' hok a t
    rw [modernLoad_cons] at hok
    cases hstep : modernLoadItem now kw st item with
    | error e => rw [hstep] at hok; cases hok
    | ok st1 =>
      rw [hstep] at hok
      obtain ⟨idv, hid, hst1⟩ := modernLoadItem_ok_inv now kw st item st1 hstep
      obtain ⟨ihex, ihset⟩ := ih st1 st' hok a t
      subst hst1
      constructor
      · intro hex
        exact ihex (mergeRel_preserves_exists now kw.AWS_ACCOUNT_ID idv kw.lastupdated
          _ a t hex)
      · intro hset
        exact ihset (mergeRel_preserves_settled now kw.AWS_ACCOUNT_ID idv kw.lastupdated
          _ a t hset)

/-- After a schema-driven load, every loaded record's node absorbs a repeat
of its own property merge, and (when the account node exists) its account
edge exists and every matching edge carries the current freshness tag. -/
theorem modernLoad_establishes (now : Int) (kw : LoadKwargs) (data : List PyDict) :
    ∀ (st st1 : GraphState),
    (∀ item ∈ data, (dictFind? item "TopicArn").isSome) →
    (data.map (fun item => dictFind? item "TopicArn")).Nodup →
    modernLoad now kw data st = Except.ok st1 →
    ∀ item ∈ data, ∀ idv, dictFind? item "TopicArn" = some idv →
      (∃ node, lookupTopic st1.topics idv = some node ∧
        dictSetMany node (modernNodeProps kw item) = node) ∧
      (kw.AWS_ACCOUNT_ID ∈ st1.accounts →
        (∃ r ∈ st1.rels, r.accountId = kw.AWS_ACCOUNT_ID ∧ r.topicId = idv) ∧
        (∀ r ∈ st1.rels, r.accountId = kw.AWS_ACCOUNT_ID → r.topicId = idv →
          r.lastupdated = kw.lastupdated)) := by
  induction data with
  | nil =>
    intro st st1 _ _ _ item hitem
    exact absurd hitem (List.not_mem_nil _)
  | cons item0 rest ih =>
    intro st st1 harn hnodup hok
    rw [modernLoad_cons] at hok
    cases hstep : modernLoadItem now kw st item0 with
    | error e => rw [hstep] at hok; cases hok
    | ok stA =>
      rw [hstep] at hok
      obtain ⟨idv0, hid0, hstA⟩ := modernLoadItem_ok_inv now kw st item0 stA hstep
      rw [List.map_cons, List.nodup_cons] at hnodup
      intro item hitem idv hidv
      rcases List.mem_cons.mp hitem with rfl | hitem'
      · have hsame : idv = idv0 := Option.some.inj (hidv.symm.trans hid0)
        subst hsame
        set P := modernNodeProps kw item with hP
        have hndP : (P.map Prod.fst).Nodup := modernNodeProps_keys_nodup kw item
        have hidP : dictFind? P "id" = some idv :=
          (modernNodeProps_id kw item).trans hidv
        have hprev : ∀ it ∈ rest, dictFind? it "TopicArn" ≠ some idv := by
          intro it hit he
          exact hnodup.1 (hid0 ▸ (List.mem_map.mpr ⟨it, hit, he⟩))
        obtain ⟨hpacc, hptop, hprel⟩ :=
          modernLoad_preserves now kw rest stA st1 hok idv hprev
        have hlookA : lookupTopic stA.topics idv =
            some (dictSetMany
              ((lookupTopic st.topics idv).getD
                [("id", idv), ("firstseen", PyVal.int now)]) P) := by
          rw [hstA, mergeRel_topics]
          exact mergeNodeList_lookup_self now idv P st.topics hndP hidP
        constructor
        · refine ⟨dictSetMany
            ((lookupTopic st.topics idv).getD
              [("id", idv), ("firstseen", PyVal.int now)]) P,
            by rw [hptop, hlookA], ?_⟩
          exact dictSetMany_idem _ P hndP
        · intro hmem
          have hmemA : kw.AWS_ACCOUNT_ID ∈ stA.accounts := by
            rw [← hpacc]
            exact hmem
          have hmemMid : kw.AWS_ACCOUNT_ID ∈
              (GraphState.mk (mergeNodeList now idv P st.topics) st.accounts st.rels).accounts := by
            rw [hstA, mergeRel_accounts] at hmemA
            exact hmemA
          have hsomeMid : (lookupTopic
              (GraphState.mk (mergeNodeList now idv P st.topics) st.accounts st.rels).topics
              idv).isSome := by
            show (lookupTopic (mergeNodeList now idv P st.topics) idv).isSome
            rw [mergeNodeList_lookup_self now idv P st.topics hndP hidP]
            rfl
          obtain ⟨hex, hset⟩ := modernLoad_preserves_relset now kw rest stA st1 hok
            kw.AWS_ACCOUNT_ID idv
          constructor
          · apply hex
            rw [hstA]
            exact mergeRel_exists_self now kw.AWS_ACCOUNT_ID idv kw.lastupdated
              _ hsomeMid hmemMid
          · apply hset
            rw [hstA]
            exact mergeRel_settles now kw.AWS_ACCOUNT_ID idv kw.lastupdated
              _ hsomeMid hmemMid
      · exact ih stA st1 (fun it hit => harn it (List.mem_cons_of_mem _ hit)) hnodup.2
          hok item hitem' idv hidv

theorem modernLoadItem_fixpoint (now : Int) (kw : LoadKwargs) (st1 : GraphState)
    (item : PyDict) (idv : PyVal) (hid : dictFind? item "TopicArn" = some idv)
    (hnode : ∃ node, lookupTopic st1.topics idv = some node ∧
      dictSetMany node (modernNodeProps kw item) = node)
    (hrel : kw.AWS_ACCOUNT_ID ∈ st1.accounts →
      (∃ r ∈ st1.rels, r.accountId = kw.AWS_ACCOUNT_ID ∧ r.topicId = idv) ∧
      (∀ r ∈ st1.rels, r.accountId = kw.AWS_ACCOUNT_ID → r.topicId = idv →
        r.lastupdated = kw.lastupdated)) :
    modernLoadItem now kw st1 item = Except.ok st1 := by
  obtain ⟨node, hlook, hidem⟩ := hnode
  have htop : mergeNodeList now idv (modernNodeProps kw item) st1.topics = st1.topics :=
    mergeNodeList_in_place now idv _ st1.topics node hlook hidem
  rw [modernLoadItem_ok now kw st1 item idv hid, htop]
  show Except.ok (mergeRel now kw.AWS_ACCOUNT_ID idv kw.lastupdated st1) = Except.ok st1
  by_cases hmem : kw.AWS_ACCOUNT_ID ∈ st1.accounts
  · obtain ⟨hex, hset⟩ := hrel hmem
    have hsome : (lookupTopic st1.topics idv).isSome := by
      rw [hlook]
      rfl
    rw [mergeRel, if_pos ⟨hsome, hmem⟩, if_pos hex]
    have hmap : st1.rels.map (fun r =>
        if r.accountId = kw.AWS_ACCOUNT_ID ∧ r.topicId = idv then
          { r with lastupdated := kw.lastupdated } else r) = st1.rels := by
      apply map_eq_self_of
      intro r hr
      by_cases hc : r.accountId = kw.AWS_ACCOUNT_ID ∧ r.topicId = idv
      · rw [if_pos hc, ← hset r hr hc.1 hc.2]
      · rw [if_neg hc]
    rw [hmap]
  · rw [mergeRel, if_neg (fun hc => hmem hc.2)]

theorem modernLoad_fixpoint (now : Int) (kw : LoadKwargs) (data : List PyDict)
    (st1 : GraphState)
    (harn : ∀ item ∈ data, (dictFind? item "TopicArn").isSome)
    (h : ∀ item ∈ data, ∀ idv, dictFind? item "TopicArn" = some idv →
      (∃ node, lookupTopic st1.topics idv = some node ∧
        dictSetMany node (modernNodeProps kw item) = node) ∧
      (kw.AWS_ACCOUNT_ID ∈ st1.accounts →
        (∃ r ∈ st1.rels, r.accountId = kw.AWS_ACCOUNT_ID ∧ r.topicId = idv) ∧
        (∀ r ∈ st1.rels, r.accountId = kw.AWS_ACCOUNT_ID → r.topicId = idv →
          r.lastupdated = kw.lastupdated))) :
    modernLoad now kw data st1 = Except.ok st1 := by
  induction data with
  | nil => rfl
  | cons item rest ih =>
    obtain ⟨idv, hid⟩ :=
      Option.isSome_iff_exists.mp (harn item (List.mem_cons_self _ _))
    obtain ⟨hnode, hrel⟩ := h item (List.mem_cons_self _ _) idv hid
    rw [modernLoad_cons, modernLoadItem_fixpoint now kw st1 item idv hid hnode hrel]
    exact ih (fun it hit => harn it (List.mem_cons_of_mem _ hit))
      (fun it hit => h it (List.mem_cons_of_mem _ hit))

theorem legacyLoadItem_falsy (now : Int) (kw : LoadKwargs) (st : GraphState)
    (item : PyDict) (idv : PyVal)
    (htr : ¬(kw.AWS_ACCOUNT_ID ≠ "" ∧ kw.lastupdated ≠ 0))
    (hid : dictFind? item "TopicArn" = some idv) :
    legacyLoadItem now kw st item = Except.ok
      { st with topics := mergeNodeList now idv (legacyNodeProps kw item) st.topics } := by
  simp only [legacyLoadItem, legacyNodeProps_eq_modern, modernNodeProps_id, hid,
    if_neg htr]

theorem legacyLoadItem_falsy_inv (now : Int) (kw : LoadKwargs) (st : GraphState)
    (item : PyDict) (st1 : GraphState)
    (htr : ¬(kw.AWS_ACCOUNT_ID ≠ "" ∧ kw.lastupdated ≠ 0))
    (h : legacyLoadItem now kw st item = Except.ok st1) :
    ∃ idv, dictFind? item "TopicArn" = some idv ∧
      st1 = { st with
        topics := mergeNodeList now idv (modernNodeProps kw item) st.topics } := by
  cases hid : dictFind? item "TopicArn" with
  | none =>
    rw [legacyLoadItem] at h
    rw [show dictFind? (legacyNodeProps kw item) "id" = none from
      (legacyNodeProps_eq_modern kw item ▸ (modernNodeProps_id kw item)).trans hid] at h
    cases h
  | some idv =>
    rw [legacyLoadItem_falsy now kw st item idv htr hid] at h
    exact ⟨idv, rfl, (Except.ok.inj h).symm⟩

theorem legacyLoad_falsy_preserves (now : Int) (kw : LoadKwargs) (data : List PyDict)
    (htr : ¬(kw.AWS_ACCOUNT_ID ≠ "" ∧ kw.lastupdated ≠ 0)) :
    ∀ (st st' : GraphState), legacyLoad now kw data st = Except.ok st' →
    st'.accounts = st.accounts ∧ st'.rels = st.rels ∧
    ∀ v : PyVal, (∀ item ∈ data, dictFind? item "TopicArn" ≠ some v) →
      lookupTopic st'.topics v = lookupTopic st.topics v := by
  induction data with
  | nil =>
    intro st st' hok
    rw [legacyLoad_nil] at hok
    cases hok
    exact ⟨rfl, rfl, fun v _ => rfl⟩
  | cons item rest ih =>
    intro st st' hok
    rw [legacyLoad_cons] at hok
    cases hstep : legacyLoadItem now kw st item with
    | error e => rw [hstep] at hok; cases hok
    | ok st1 =>
      rw [hstep] at hok
      obtain ⟨idv, hid, hst1⟩ := legacyLoadItem_falsy_inv now kw st item st1 htr hstep
      obtain ⟨hacc, hrels, htop⟩ := ih st1 st' hok
      subst hst1
      refine ⟨hacc, hrels, ?_⟩
      intro v hne
      rw [htop v (fun it hit => hne it (List.mem_cons_of_mem _ hit))]
      exact mergeNodeList_lookup_other now idv _ st.topics v
        (fun he => hne item (List.mem_cons_self _ _) (he ▸ hid))
        (modernNodeProps_keys_nodup kw item)
        ((modernNodeProps_id kw item).trans hid)

theorem legacyLoad_falsy_establishes (now : Int) (kw : LoadKwargs) (data : List PyDict)
    (htr : ¬(kw.AWS_ACCOUNT_ID ≠ "" ∧ kw.lastupdated ≠ 0)) :
    ∀ (st st1 : GraphState),
    (data.map (fun item => dictFind? item "TopicArn")).Nodup →
    legacyLoad now kw data st = Except.ok st1 →
    ∀ item ∈ data, ∀ idv, dictFind? item "TopicArn" = some idv →
      ∃ node, lookupTopic st1.topics idv = some node ∧
        dictSetMany node (modernNodeProps kw item) = node := by
  induction data with
  | nil =>
    intro st st1 _ _ item hitem
    exact absurd hitem (List.not_mem_nil _)
  | cons item0 rest ih =>
    intro st st1 hnodup hok
    rw [legacyLoad_cons] at hok
    cases hstep : legacyLoadItem now kw st item0 with
    | error e => rw [hstep] at hok; cases hok
    | ok stA =>
      rw [hstep] at hok
      obtain ⟨idv0, hid0, hstA⟩ := legacyLoadItem_falsy_inv now kw st item0 stA htr hstep
      rw [List.map_cons, List.nodup_cons] at hnodup
      intro item hitem idv hidv
      rcases List.mem_cons.mp hitem with rfl | hitem'
      · have hsame : idv = idv0 := Option.some.inj (hidv.symm.trans hid0)
        subst hsame
        set P := modernNodeProps kw item with hP
        have hndP : (P.map Prod.fst).Nodup := modernNodeProps_keys_nodup kw item
        have hidP : dictFind? P "id" = some idv :=
          (modernNodeProps_id kw item).trans hidv
        obtain ⟨_, _, htopPres⟩ := legacyLoad_falsy_preserves now kw rest htr stA st1 hok
        have hprev : ∀ it ∈ rest, dictFind? it "TopicArn" ≠ some idv := by
          intro it hit he
          exact hnodup.1 (hid0 ▸ (List.mem_map.mpr ⟨it, hit, he⟩))
        refine ⟨dictSetMany
          ((lookupTopic st.topics idv).getD
            [("id", idv), ("firstseen", PyVal.int now)]) P, ?_, ?_⟩
        · rw [htopPres idv hprev, hstA]
          exact mergeNodeList_lookup_self now idv P st.topics hndP hidP
        · exact dictSetMany_idem _ P hndP
      · exact ih stA st1 hnodup.2 hok item hitem' idv hidv

theorem legacyLoadItem_falsy_fixpoint (now : Int) (kw : LoadKwargs) (st1 : GraphState)
    (item : PyDict) (idv : PyVal)
    (htr : ¬(kw.AWS_ACCOUNT_ID ≠ "" ∧ kw.lastupdated ≠ 0))
    (hid : dictFind? item "TopicArn" = some idv)
    (hnode : ∃ node, lookupTopic st1.topics idv = some node ∧
      dictSetMany node (modernNodeProps kw item) = node) :
    legacyLoadItem now kw st1 item = Except.ok st1 := by
  obtain ⟨node, hlook, hidem⟩ := hnode
  have htop : mergeNodeList now idv (modernNodeProps kw item) st1.topics = st1.topics :=
    mergeNodeList_in_place now idv _ st1.topics node hlook hidem
  rw [legacyLoadItem_falsy now kw st1 item idv htr hid]
  rw [show legacyNodeProps kw item = modernNodeProps kw item from rfl, htop]

theorem legacyLoad_falsy_fixpoint (now : Int) (kw : LoadKwargs) (data : List PyDict)
    (st1 : GraphState)
    (htr : ¬(kw.AWS_ACCOUNT_ID ≠ "" ∧ kw.lastupdated ≠ 0))
    (harn : ∀ item ∈ data, (dictFind? item "TopicArn").isSome)
    (h : ∀ item ∈ data, ∀ idv, dictFind? item "TopicArn" = some idv →
      ∃ node, lookupTopic st1.topics idv = some node ∧
        dictSetMany node (modernNodeProps kw item) = node) :
    legacyLoad now kw data st1 = Except.ok st1 := by
  induction data with
  | nil => rfl
  | cons item rest ih =>
    obtain ⟨idv, hid⟩ :=
      Option.isSome_iff_exists.mp (harn item (List.mem_cons_self _ _))
    rw [legacyLoad_cons, legacyLoadItem_falsy_fixpoint now kw st1 item idv htr hid
      (h item (List.mem_cons_self _ _) idv hid)]
    exact ih (fun it hit => harn it (List.mem_cons_of_mem _ hit))
      (fun it hit => h it (List.mem_cons_of_mem _ hit))

/-- C6 — invoking the upsert a second time with identical records, region,
account id and freshness tag (records carrying pairwise-distinct
identifiers) leaves the graph state of the first invocation exactly as it
is: the node and edge sets, field values and tags are unchanged. -/
theorem C6_idempotent (v : ℚ) (now1 now2 : Int) (kw : LoadKwargs) (data : List PyDict)
    (st st1 : GraphState)
    (harn : ∀ item ∈ data, (dictFind? item "TopicArn").isSome)
    (hnodup : (data.map (fun item => dictFind? item "TopicArn")).Nodup)
    (h1 : compatible_load v now1 kw data st = Except.ok st1) :
    compatible_load v now2 kw data st1 = Except.ok st1 := by
  rw [compatible_load] at h1 ⊢
  by_cases hv : 4 ≤ v
  · rw [if_pos hv] at h1 ⊢
    exact modernLoad_fixpoint now2 kw data st1 harn
      (modernLoad_establishes now1 kw data st st1 harn hnodup h1)
  · rw [if_neg hv] at h1 ⊢
    by_cases htr : kw.AWS_ACCOUNT_ID ≠ "" ∧ kw.lastupdated ≠ 0
    · rw [legacyLoad_eq_modern now1 kw data st htr.1 htr.2] at h1
      rw [legacyLoad_eq_modern now2 kw data st1 htr.1 htr.2]
      exact modernLoad_fixpoint now2 kw data st1 harn
        (modernLoad_establishes now1 kw data st st1 harn hnodup h1)
    · exact legacyLoad_falsy_fixpoint now2 kw data st1 htr harn
        (legacyLoad_falsy_establishes now1 kw data htr st st1 hnodup h1)

/-- C6 witness: a second identical invocation on the state produced by the
first one returns that state unchanged. -/
theorem C6_idempotent_witness :
    ((∀ item ∈ [cItem], (dictFind? item "TopicArn").isSome) ∧
     ([cItem].map (fun item => dictFind? item "TopicArn")).Nodup ∧
     compatible_load 3 0 cKwZero [cItem] cStAcct = Except.ok cLegacyZeroSt) ∧
    compatible_load 3 99 cKwZero [cItem] cLegacyZeroSt = Except.ok cLegacyZeroSt :=
  ⟨⟨by decide, by decide, by rfl⟩,
   C6_idempotent 3 0 99 cKwZero [cItem] cStAcct cLegacyZeroSt
     (by decide) (by decide) (by rfl)⟩

/-! Cleanup lemmas. -/

theorem deleteStale_zero (tag : Int) (ns : List PyDict) :
    deleteStale tag 0 ns = (ns, []) := by
  cases ns <;> rfl

theorem deleteStale_cons (tag : Int) (k : Nat) (n : PyDict) (rest : List PyDict) :
    deleteStale tag (Nat.succ k) (n :: rest) =
      if staleTopic tag n then
        ((deleteStale tag k rest).1, nodeId? n :: (deleteStale tag k rest).2)
      else
        (n :: (deleteStale tag (Nat.succ k) rest).1, (deleteStale tag (Nat.succ k) rest).2) := by
  rw [deleteStale]

/-- When the stale set fits in the batch budget, the bounded delete removes
exactly the stale nodes, in order. -/
theorem deleteStale_all (tag : Int) (ns : List PyDict) : ∀ (k : Nat),
    (ns.filter (staleTopic tag)).length ≤ k →
    deleteStale tag k ns = (ns.filter (fun n => ! staleTopic tag n),
      (ns.filter (staleTopic tag)).map nodeId?) := by
  induction ns with
  | nil => intro k _; cases k <;> rfl
  | cons n rest ih =>
    intro k hlen
    cases k with
    | zero =>
      have hnil : (n :: rest).filter (staleTopic tag) = [] :=
        List.length_eq_zero.mp (Nat.le_zero.mp hlen)
      have hall : ∀ a ∈ n :: rest, ¬ staleTopic tag a := List.filter_eq_nil_iff.mp hnil
      rw [deleteStale_zero, hnil, List.map_nil]
      have hself : (n :: rest).filter (fun a => ! staleTopic tag a) = n :: rest := by
        rw [List.filter_eq_self]
        intro a ha
        simpa using hall a ha
      rw [hself]
    | succ k' =>
      rw [deleteStale_cons]
      by_cases hs : staleTopic tag n
      · rw [if_pos hs]
        rw [List.filter_cons_of_pos hs] at hlen
        rw [ih k' (Nat.succ_le_succ_iff.mp hlen)]
        rw [List.filter_cons_of_pos hs,
          List.filter_cons_of_neg (by rw [Bool.not_eq_true']; simpa using hs),
          List.map_cons]
      · rw [if_neg hs]
        rw [List.filter_cons_of_neg hs] at hlen
        rw [ih (Nat.succ k') hlen]
        rw [List.filter_cons_of_neg hs,
          List.filter_cons_of_pos (by rw [Bool.not_eq_true']; simpa using hs)]

theorem deleteStale_length (tag : Int) (ns : List PyDict) : ∀ (k : Nat),
    ns.length - k ≤ (deleteStale tag k ns).1.length := by
  induction ns with
  | nil => intro k; cases k <;> simp [deleteStale]
  | cons n rest ih =>
    intro k
    cases k with
    | zero => rw [deleteStale_zero]; simp
    | succ k' =>
      rw [deleteStale_cons]
      by_cases hs : staleTopic tag n
      · rw [if_pos hs]
        have := ih k'
        simp only [List.length_cons]
        omega
      · rw [if_neg hs]
        have := ih (Nat.succ k')
        simp only [List.length_cons]
        omega

theorem deleteStale_keeps (tag : Int) (ns : List PyDict) : ∀ (k : Nat) (n : PyDict),
    n ∈ ns → staleTopic tag n = false → n ∈ (deleteStale tag k ns).1 := by
  induction ns with
  | nil => intro k n hn; exact absurd hn (List.not_mem_nil _)
  | cons n0 rest ih =>
    intro k n hn hns
    cases k with
    | zero => rw [deleteStale_zero]; exact hn
    | succ k' =>
      rw [deleteStale_cons]
      by_cases hs : staleTopic tag n0
      · rw [if_pos hs]
        rcases List.mem_cons.mp hn with rfl | hn'
        · rw [hns] at hs; cases hs
        · exact ih k' n hn' hns
      · rw [if_neg hs]
        rcases List.mem_cons.mp hn with rfl | hn'
        · exact List.mem_cons_self _ _
        · exact List.mem_cons_of_mem _ (ih (Nat.succ k') n hn' hns)

/-- C10 — the legacy cleanup path never uses the account id it reads from
the job parameters: for any two account ids the results coincide; the
deletion is decided solely by the freshness-tag filter (`deleteStale`),
bounded by the 10000-node cap; account nodes are untouched, fresh topic
nodes all survive, and when the stale set fits the cap the survivors are
exactly the non-stale nodes. -/
theorem C10_cleanup_ignores_account (tag : Int) (a1 a2 : String) (st : GraphState) :
    legacyCleanup ⟨tag, a1⟩ st = legacyCleanup ⟨tag, a2⟩ st ∧
    (legacyCleanup ⟨tag, a1⟩ st).accounts = st.accounts ∧
    (legacyCleanup ⟨tag, a1⟩ st).topics = (deleteStale tag 10000 st.topics).1 ∧
    st.topics.length - 10000 ≤ (legacyCleanup ⟨tag, a1⟩ st).topics.length ∧
    (∀ n ∈ st.topics, staleTopic tag n = false →
      n ∈ (legacyCleanup ⟨tag, a1⟩ st).topics) ∧
    ((st.topics.filter (staleTopic tag)).length ≤ 10000 →
      (legacyCleanup ⟨tag, a1⟩ st).topics =
        st.topics.filter (fun n => ! staleTopic tag n)) :=
  ⟨rfl, rfl, rfl, deleteStale_length tag st.topics 10000,
   fun n hn hns => deleteStale_keeps tag st.topics 10000 n hn hns,
   fun hcap => by
     show (deleteStale tag 10000 st.topics).1 = _
     rw [deleteStale_all tag st.topics 10000 hcap]⟩

/-- C10 witness: the cleanup facts at a concrete two-node graph with tag 2
and two different account ids. -/
theorem C10_cleanup_ignores_account_witness :
    ((cCleanSt.topics.filter (staleTopic 2)).length ≤ 10000 ∧
     [("id", PyVal.str "y"), ("lastupdated", PyVal.int 2)] ∈ cCleanSt.topics ∧
     staleTopic 2 [("id", PyVal.str "y"), ("lastupdated", PyVal.int 2)] = false) ∧
    (legacyCleanup ⟨2, "alpha"⟩ cCleanSt = legacyCleanup ⟨2, "beta"⟩ cCleanSt ∧
     (legacyCleanup ⟨2, "alpha"⟩ cCleanSt).topics =
       cCleanSt.topics.filter (fun n => ! staleTopic 2 n) ∧
     [("id", PyVal.str "y"), ("lastupdated", PyVal.int 2)] ∈
       (legacyCleanup ⟨2, "alpha"⟩ cCleanSt).topics) :=
  ⟨⟨by decide, by decide, by decide⟩,
   ⟨(C10_cleanup_ignores_account 2 "alpha" "beta" cCleanSt).1,
    (C10_cleanup_ignores_account 2 "alpha" "beta" cCleanSt).2.2.2.2.2 (by decide),
    (C10_cleanup_ignores_account 2 "alpha" "beta" cCleanSt).2.2.2.2.1
      [("id", PyVal.str "y"), ("lastupdated", PyVal.int 2)] (by decide) (by decide)⟩⟩

/-! Fresh-load characterization (used for reconciliation). -/

theorem modernLoadItem_topics_inv (now : Int) (kw : LoadKwargs) (st : GraphState)
    (item : PyDict) (st1 : GraphState)
    (h : modernLoadItem now kw st item = Except.ok st1) :
    ∃ idv, dictFind? item "TopicArn" = some idv ∧
      st1.topics = mergeNodeList now idv (modernNodeProps kw item) st.topics ∧
      st1.accounts = st.accounts := by
  obtain ⟨idv, hid, heq⟩ := modernLoadItem_ok_inv now kw st item st1 h
  subst heq
  exact ⟨idv, hid, by rw [mergeRel_topics], by rw [mergeRel_accounts]⟩

theorem legacyLoadItem_isOk (now : Int) (kw : LoadKwargs) (st : GraphState)
    (item : PyDict) (idv : PyVal) (hid : dictFind? item "TopicArn" = some idv) :
    ∃ st1, legacyLoadItem now kw st item = Except.ok st1 ∧
      st1.topics = mergeNodeList now idv (modernNodeProps kw item) st.topics ∧
      st1.accounts = st.accounts ∧
      ((kw.AWS_ACCOUNT_ID ≠ "" ∧ kw.lastupdated ≠ 0) ∨ st1.rels = st.rels) := by
  by_cases htr : kw.AWS_ACCOUNT_ID ≠ "" ∧ kw.lastupdated ≠ 0
  · rw [legacyLoadItem_eq_modern now kw st item htr.1 htr.2,
      modernLoadItem_ok now kw st item idv hid]
    exact ⟨_, rfl, by rw [mergeRel_topics], by rw [mergeRel_accounts], Or.inl htr⟩
  · rw [legacyLoadItem_falsy now kw st item idv htr hid]
    exact ⟨_, rfl, rfl, rfl, Or.inr rfl⟩

theorem freshTopicNode_id (now : Int) (kw : LoadKwargs) (item : PyDict) (idv : PyVal)
    (hid : dictFind? item "TopicArn" = some idv) :
    nodeId? (freshTopicNode now kw item) = some idv := by
  show dictFind?
    (dictSetMany [("id", (dictFind? item "TopicArn").getD (PyVal.str "")),
      ("firstseen", PyVal.int now)] (modernNodeProps kw item)) "id" = some idv
  exact dictFind?_dictSetMany_mem _ _ _ _ (modernNodeProps_keys_nodup kw item)
    (dictFind?_mem ((modernNodeProps_id kw item).trans hid))

theorem freshTopicNode_lastupdated (now : Int) (kw : LoadKwargs) (item : PyDict) :
    dictFind? (freshTopicNode now kw item) "lastupdated" =
      some (PyVal.int kw.lastupdated) := by
  show dictFind?
    (dictSetMany [("id", (dictFind? item "TopicArn").getD (PyVal.str "")),
      ("firstseen", PyVal.int now)] (modernNodeProps kw item)) "lastupdated" = _
  exact dictFind?_dictSetMany_mem _ _ _ _ (modernNodeProps_keys_nodup kw item)
    (dictFind?_mem (modernNodeProps_lastupdated kw item))

theorem freshTopicNode_eq (now : Int) (kw : LoadKwargs) (item : PyDict) (idv : PyVal)
    (hid : dictFind? item "TopicArn" = some idv) :
    freshTopicNode now kw item =
      dictSetMany [("id", idv), ("firstseen", PyVal.int now)]
        (modernNodeProps kw item) := by
  rw [freshTopicNode, hid]
  rfl

theorem modernLoad_fresh (now : Int) (kw : LoadKwargs) (data : List PyDict) :
    ∀ st : GraphState,
    (∀ item ∈ data, (dictFind? item "TopicArn").isSome) →
    (data.map (fun item => dictFind? item "TopicArn")).Nodup →
    (∀ item ∈ data, ∀ idv, dictFind? item "TopicArn" = some idv →
      lookupTopic st.topics idv = none) →
    ∃ st', modernLoad now kw data st = Except.ok st' ∧
      st'.topics = st.topics ++ data.map (freshTopicNode now kw) ∧
      st'.accounts = st.accounts := by
  induction data with
  | nil => intro st _ _ _; exact ⟨st, rfl, by simp, rfl⟩
  | cons item rest ih =>
    intro st harn hnodup hfresh
    obtain ⟨idv, hid⟩ :=
      Option.isSome_iff_exists.mp (harn item (List.mem_cons_self _ _))
    have hstep := modernLoadItem_ok now kw st item idv hid
    rw [List.map_cons, List.nodup_cons] at hnodup
    have htopA' : (mergeRel now kw.AWS_ACCOUNT_ID idv kw.lastupdated
        { st with topics := mergeNodeList now idv (modernNodeProps kw item) st.topics }).topics =
        st.topics ++ [freshTopicNode now kw item] := by
      rw [mergeRel_topics]
      show mergeNodeList now idv (modernNodeProps kw item) st.topics = _
      rw [mergeNodeList_append_fresh now idv _ st.topics
        (hfresh item (List.mem_cons_self _ _) idv hid),
        freshTopicNode_eq now kw item idv hid]
    have haccA : (mergeRel now kw.AWS_ACCOUNT_ID idv kw.lastupdated
        { st with topics := mergeNodeList now idv (modernNodeProps kw item) st.topics }).accounts =
        st.accounts := by
      rw [mergeRel_accounts]
    have hfreshA : ∀ it ∈ rest, ∀ w, dictFind? it "TopicArn" = some w →
        lookupTopic (mergeRel now kw.AWS_ACCOUNT_ID idv kw.lastupdated
          { st with topics := mergeNodeList now idv (modernNodeProps kw item) st.topics }).topics
          w = none := by
      intro it hit w hw
      rw [htopA', lookupTopic_append,
        hfresh it (List.mem_cons_of_mem _ hit) w hw]
      have hwv : w ≠ idv := by
        intro he
        exact hnodup.1 (hid ▸ he ▸ (List.mem_map.mpr ⟨it, hit, hw⟩))
      show lookupTopic [freshTopicNode now kw item] w = none
      rw [lookupTopic_cons, if_neg, lookupTopic]
      rw [freshTopicNode_id now kw item idv hid]
      intro he
      exact hwv (Option.some.inj he).symm
    obtain ⟨st', hok', htop', hacc'⟩ := ih _
      (fun it hit => harn it (List.mem_cons_of_mem _ hit)) hnodup.2 hfreshA
    refine ⟨st', ?_, ?_, hacc'.trans haccA⟩
    · rw [modernLoad_cons, hstep]
      exact hok'
    · rw [htop', htopA', List.map_cons, List.append_assoc]
      rfl

theorem legacyLoad_fresh (now : Int) (kw : LoadKwargs) (data : List PyDict) :
    ∀ st : GraphState,
    (∀ item ∈ data, (dictFind? item "TopicArn").isSome) →
    (data.map (fun item => dictFind? item "TopicArn")).Nodup →
    (∀ item ∈ data, ∀ idv, dictFind? item "TopicArn" = some idv →
      lookupTopic st.topics idv = none) →
    ∃ st', legacyLoad now kw data st = Except.ok st' ∧
      st'.topics = st.topics ++ data.map (freshTopicNode now kw) ∧
      st'.accounts = st.accounts := by
  induction data with
  | nil => intro st _ _ _; exact ⟨st, rfl, by simp, rfl⟩
  | cons item rest ih =>
    intro st harn hnodup hfresh
    obtain ⟨idv, hid⟩ :=
      Option.isSome_iff_exists.mp (harn item (List.mem_cons_self _ _))
    obtain ⟨stA, hstep, htopA, haccA, _⟩ := legacyLoadItem_isOk now kw st item idv hid
    rw [List.map_cons, List.nodup_cons] at hnodup
    have htopA' : stA.topics = st.topics ++ [freshTopicNode now kw item] := by
      rw [htopA, mergeNodeList_append_fresh now idv _ st.topics
        (hfresh item (List.mem_cons_self _ _) idv hid),
        freshTopicNode_eq now kw item idv hid]
    have hfreshA : ∀ it ∈ rest, ∀ w, dictFind? it "TopicArn" = some w →
        lookupTopic stA.topics w = none := by
      intro it hit w hw
      rw [htopA', lookupTopic_append,
        hfresh it (List.mem_cons_of_mem _ hit) w hw]
      have hwv : w ≠ idv := by
        intro he
        exact hnodup.1 (hid ▸ he ▸ (List.mem_map.mpr ⟨it, hit, hw⟩))
      show lookupTopic [freshTopicNode now kw item] w = none
      rw [lookupTopic_cons, if_neg, lookupTopic]
      rw [freshTopicNode_id now kw item idv hid]
      intro he
      exact hwv (Option.some.inj he).symm
    obtain ⟨st', hok', htop', hacc'⟩ := ih stA
      (fun it hit => harn it (List.mem_cons_of_mem _ hit)) hnodup.2 hfreshA
    refine ⟨st', ?_, ?_, hacc'.trans haccA⟩
    · rw [legacyLoad_cons, hstep]
      exact hok'
    · rw [htop', htopA', List.map_cons, List.append_assoc]
      rfl

theorem compatible_load_fresh (v : ℚ) (now : Int) (kw : LoadKwargs) (data : List PyDict)
    (st : GraphState)
    (harn : ∀ item ∈ data, (dictFind? item "TopicArn").isSome)
    (hnodup : (data.map (fun item => dictFind? item "TopicArn")).Nodup)
    (hfresh : ∀ item ∈ data, ∀ idv, dictFind? item "TopicArn" = some idv →
      lookupTopic st.topics idv = none) :
    ∃ st', compatible_load v now kw data st = Except.ok st' ∧
      st'.topics = st.topics ++ data.map (freshTopicNode now kw) ∧
      st'.accounts = st.accounts := by
  rw [compatible_load]
  by_cases hv : 4 ≤ v
  · rw [if_pos hv]
    exact modernLoad_fresh now kw data st harn hnodup hfresh
  · rw [if_neg hv]
    exact legacyLoad_fresh now kw data st harn hnodup hfresh

theorem lookupTopic_map_fresh_none (now : Int) (kw : LoadKwargs) (l : List PyDict)
    (v : PyVal)
    (harn : ∀ item ∈ l, (dictFind? item "TopicArn").isSome)
    (hne : ∀ item ∈ l, dictFind? item "TopicArn" ≠ some v) :
    lookupTopic (l.map (freshTopicNode now kw)) v = none := by
  induction l with
  | nil => rfl
  | cons item rest ih =>
    obtain ⟨idv, hid⟩ :=
      Option.isSome_iff_exists.mp (harn item (List.mem_cons_self _ _))
    rw [List.map_cons, lookupTopic_cons, if_neg, ih
      (fun it hit => harn it (List.mem_cons_of_mem _ hit))
      (fun it hit => hne it (List.mem_cons_of_mem _ hit))]
    rw [freshTopicNode_id now kw item idv hid]
    intro he
    exact hne item (List.mem_cons_self _ _) ((Option.some.inj he) ▸ hid)

theorem lookupTopic_map_fresh_mem (now : Int) (kw : LoadKwargs) (l : List PyDict)
    (v : PyVal) (h : ∃ item ∈ l, dictFind? item "TopicArn" = some v) :
    (lookupTopic (l.map (freshTopicNode now kw)) v).isSome := by
  induction l with
  | nil => obtain ⟨item, hit, _⟩ := h; exact absurd hit (List.not_mem_nil _)
  | cons item rest ih =>
    rw [List.map_cons, lookupTopic_cons]
    by_cases hn : nodeId? (freshTopicNode now kw item) = some v
    · rw [if_pos hn]
      rfl
    · rw [if_neg hn]
      obtain ⟨it, hit, hidv⟩ := h
      rcases List.mem_cons.mp hit with rfl | hit'
      · exact absurd (freshTopicNode_id now kw it v hidv) hn
      · exact ih ⟨it, hit', hidv⟩

theorem legacyCleanup_topics (p : CommonJobParameters) (st : GraphState) :
    (legacyCleanup p st).topics = (deleteStale p.UPDATE_TAG 10000 st.topics).1 := rfl

theorem freshTopicNode_stale (now : Int) (kw : LoadKwargs) (item : PyDict) (T2 : Int)
    (h : kw.lastupdated ≠ T2) :
    staleTopic T2 (freshTopicNode now kw item) = true := by
  simp only [staleTopic, freshTopicNode_lastupdated]
  exact decide_eq_true (fun he => h (PyVal.int.inj he))

theorem freshTopicNode_not_stale (now : Int) (kw : LoadKwargs) (item : PyDict) :
    staleTopic kw.lastupdated (freshTopicNode now kw item) = false := by
  simp only [staleTopic, freshTopicNode_lastupdated]
  simp

/-- C5 as amended — starting from a graph with no topic nodes, upsert a set
`S1` with tag `T1`, then an identifier-disjoint set `S2` with a different
tag `T2`, then run the cleanup against `T2`: provided `S1` fits the legacy
path's 10000-node deletion cap, exactly the `S1` nodes are removed — the
surviving topic nodes are precisely the `S2` nodes — for every store
version. -/
theorem C5_reconcile (v : ℚ) (now1 now2 : Int) (kw1 kw2 : LoadKwargs)
    (S1 S2 : List PyDict) (accounts : List String) (awsId : String)
    (harn1 : ∀ item ∈ S1, (dictFind? item "TopicArn").isSome)
    (harn2 : ∀ item ∈ S2, (dictFind? item "TopicArn").isSome)
    (hnd1 : (S1.map (fun item => dictFind? item "TopicArn")).Nodup)
    (hnd2 : (S2.map (fun item => dictFind? item "TopicArn")).Nodup)
    (hdisj : ∀ item1 ∈ S1, ∀ item2 ∈ S2,
      dictFind? item1 "TopicArn" ≠ dictFind? item2 "TopicArn")
    (htag : kw1.lastupdated ≠ kw2.lastupdated)
    (hcap : S1.length ≤ 10000) :
    ∃ st1 st2,
      compatible_load v now1 kw1 S1 ⟨[], accounts, []⟩ = Except.ok st1 ∧
      compatible_load v now2 kw2 S2 st1 = Except.ok st2 ∧
      (cleanup_sns v ⟨kw2.lastupdated, awsId⟩ st2).topics =
        S2.map (freshTopicNode now2 kw2) ∧
      (∀ item ∈ S1, ∀ idv, dictFind? item "TopicArn" = some idv →
        lookupTopic (cleanup_sns v ⟨kw2.lastupdated, awsId⟩ st2).topics idv = none) ∧
      (∀ item ∈ S2, ∀ idv, dictFind? item "TopicArn" = some idv →
        (lookupTopic (cleanup_sns v ⟨kw2.lastupdated, awsId⟩ st2).topics idv).isSome) := by
  obtain ⟨st1, hok1, htop1, _⟩ := compatible_load_fresh v now1 kw1 S1 ⟨[], accounts, []⟩
    harn1 hnd1 (fun item _ idv _ => rfl)
  rw [List.nil_append] at htop1
  have hfresh2 : ∀ item ∈ S2, ∀ idv, dictFind? item "TopicArn" = some idv →
      lookupTopic st1.topics idv = none := by
    intro item hitem idv hidv
    rw [htop1]
    refine lookupTopic_map_fresh_none now1 kw1 S1 idv harn1 ?_
    intro it1 hit1 he
    exact hdisj it1 hit1 item hitem (he.trans hidv.symm)
  obtain ⟨st2, hok2, htop2, _⟩ := compatible_load_fresh v now2 kw2 S2 st1
    harn2 hnd2 hfresh2
  have hstale1 : ∀ n ∈ S1.map (freshTopicNode now1 kw1),
      staleTopic kw2.lastupdated n = true := by
    intro n hn
    obtain ⟨item, _, rfl⟩ := List.mem_map.mp hn
    exact freshTopicNode_stale now1 kw1 item kw2.lastupdated htag
  have hstale2 : ∀ n ∈ S2.map (freshTopicNode now2 kw2),
      staleTopic kw2.lastupdated n = false := by
    intro n hn
    obtain ⟨item, _, rfl⟩ := List.mem_map.mp hn
    exact freshTopicNode_not_stale now2 kw2 item
  have htopics2 : st2.topics =
      S1.map (freshTopicNode now1 kw1) ++ S2.map (freshTopicNode now2 kw2) := by
    rw [htop2, htop1]
  have hfilterStale : st2.topics.filter (staleTopic kw2.lastupdated) =
      S1.map (freshTopicNode now1 kw1) := by
    rw [htopics2, List.filter_append, List.filter_eq_self.mpr hstale1,
      List.filter_eq_nil_iff.mpr (fun a ha => by simp [hstale2 a ha]),
      List.append_nil]
  have hfilterFresh : st2.topics.filter (fun n => ! staleTopic kw2.lastupdated n) =
      S2.map (freshTopicNode now2 kw2) := by
    rw [htopics2, List.filter_append,
      List.filter_eq_nil_iff.mpr (fun a ha => by simp [hstale1 a ha]),
      List.filter_eq_self.mpr (fun a ha => by simp [hstale2 a ha]),
      List.nil_append]
  have hfinal : (cleanup_sns v ⟨kw2.lastupdated, awsId⟩ st2).topics =
      S2.map (freshTopicNode now2 kw2) := by
    rw [cleanup_sns]
    by_cases hv : 4 ≤ v
    · rw [if_pos hv]
      show st2.topics.filter (fun n => ! staleTopic kw2.lastupdated n) = _
      exact hfilterFresh
    · rw [if_neg hv]
      show (deleteStale kw2.lastupdated 10000 st2.topics).1 = _
      rw [deleteStale_all kw2.lastupdated st2.topics 10000
        (by rw [hfilterStale, List.length_map]; exact hcap)]
      exact hfilterFresh
  refine ⟨st1, st2, hok1, hok2, hfinal, ?_, ?_⟩
  · intro item hitem idv hidv
    rw [hfinal]
    refine lookupTopic_map_fresh_none now2 kw2 S2 idv harn2 ?_
    intro it2 hit2 he
    exact hdisj item hitem it2 hit2 (hidv.trans he.symm)
  · intro item hitem idv hidv
    rw [hfinal]
    exact lookupTopic_map_fresh_mem now2 kw2 S2 idv ⟨item, hitem, hidv⟩

/-- C5 witness: the reconciliation theorem at singleton sets with tags 1 and
2 on the legacy version. -/
theorem C5_reconcile_witness :
    ((∀ item ∈ [[("TopicArn", PyVal.str "a:1")]], (dictFind? item "TopicArn").isSome) ∧
     (∀ item ∈ [[("TopicArn", PyVal.str "a:2")]], (dictFind? item "TopicArn").isSome) ∧
     ([[("TopicArn", PyVal.str "a:1")]].map
       (fun item => dictFind? item "TopicArn")).Nodup ∧
     ([[("TopicArn", PyVal.str "a:2")]].map
       (fun item => dictFind? item "TopicArn")).Nodup ∧
     (∀ item1 ∈ [[("TopicArn", PyVal.str "a:1")]],
       ∀ item2 ∈ [[("TopicArn", PyVal.str "a:2")]],
         dictFind? item1 "TopicArn" ≠ dictFind? item2 "TopicArn") ∧
     (LoadKwargs.mk "r" 1 "000000000000").lastupdated ≠
       (LoadKwargs.mk "r" 2 "000000000000").lastupdated ∧
     [[("TopicArn", PyVal.str "a:1")]].length ≤ 10000) ∧
    (∃ st1 st2,
      compatible_load 3 0 ⟨"r", 1, "000000000000"⟩ [[("TopicArn", PyVal.str "a:1")]]
        ⟨[], ["000000000000"], []⟩ = Except.ok st1 ∧
      compatible_load 3 1 ⟨"r", 2, "000000000000"⟩ [[("TopicArn", PyVal.str "a:2")]]
        st1 = Except.ok st2 ∧
      (cleanup_sns 3 ⟨(LoadKwargs.mk "r" 2 "000000000000").lastupdated, "000000000000"⟩
          st2).topics =
        [[("TopicArn", PyVal.str "a:2")]].map
          (freshTopicNode 1 ⟨"r", 2, "000000000000"⟩) ∧
      (∀ item ∈ [[("TopicArn", PyVal.str "a:1")]], ∀ idv,
        dictFind? item "TopicArn" = some idv →
        lookupTopic (cleanup_sns 3
          ⟨(LoadKwargs.mk "r" 2 "000000000000").lastupdated, "000000000000"⟩ st2).topics
          idv = none) ∧
      (∀ item ∈ [[("TopicArn", PyVal.str "a:2")]], ∀ idv,
        dictFind? item "TopicArn" = some idv →
        (lookupTopic (cleanup_sns 3
          ⟨(LoadKwargs.mk "r" 2 "000000000000").lastupdated, "000000000000"⟩ st2).topics
          idv).isSome)) :=
  ⟨⟨by decide, by decide, by decide, by decide, by decide, by decide, by decide⟩,
   C5_reconcile 3 0 1 ⟨"r", 1, "000000000000"⟩ ⟨"r", 2, "000000000000"⟩
     [[("TopicArn", PyVal.str "a:1")]] [[("TopicArn", PyVal.str "a:2")]]
     ["000000000000"] "000000000000"
     (by decide) (by decide) (by decide) (by decide) (by decide) (by decide) (by decide)⟩

/-- C5 counterexample — upsert 10001 distinct records with tag 1 into an
empty graph, upsert the disjoint empty set with tag 2, then clean up against
tag 2 on the legacy (below 4.0) path: the claim demands that every `S1` node
be removed, but the legacy delete is capped at 10000 nodes per invocation,
so at least one stale topic node survives. -/
theorem C5_counterexample :
    cBulk.length = 10001 ∧
    compatible_load 3 0 ⟨"r", 1, ""⟩ cBulk ⟨[], [], []⟩ = Except.ok cBulkLoaded ∧
    compatible_load 3 1 ⟨"r", 2, ""⟩ [] cBulkLoaded = Except.ok cBulkLoaded ∧
    (cleanup_sns 3 ⟨2, "000000000000"⟩ cBulkLoaded).topics ≠ [] := by
  have hv3 : ¬ (4 : ℚ) ≤ 3 := by decide
  have harn : ∀ item ∈ cBulk, (dictFind? item "TopicArn").isSome := by
    intro item hitem
    obtain ⟨i, _, rfl⟩ := List.mem_map.mp hitem
    rfl
  have hmm : cBulk.map (fun item => dictFind? item "TopicArn") =
      (List.range 10001).map
        (fun i => some (PyVal.str (String.mk (List.replicate i 'a')))) := by
    rw [cBulk, List.map_map]
    rfl
  have hnodup : (cBulk.map (fun item => dictFind? item "TopicArn")).Nodup := by
    rw [hmm]
    refine List.Nodup.map ?_ (List.nodup_range 10001)
    intro i j h
    simp only [Option.some.injEq, PyVal.str.injEq] at h
    have hdata := congrArg String.data h
    have hlen := congrArg List.length hdata
    simpa using hlen
  obtain ⟨st', hok, htop, hacc⟩ := legacyLoad_fresh 0 ⟨"r", 1, ""⟩ cBulk ⟨[], [], []⟩
    harn hnodup (fun item _ idv _ => rfl)
  have htr : ¬((LoadKwargs.mk "r" 1 "").AWS_ACCOUNT_ID ≠ "" ∧
      (LoadKwargs.mk "r" 1 "").lastupdated ≠ 0) := by
    intro hc
    exact hc.1 rfl
  obtain ⟨_, hrels, _⟩ :=
    legacyLoad_falsy_preserves 0 ⟨"r", 1, ""⟩ cBulk htr ⟨[], [], []⟩ st' hok
  rw [List.nil_append] at htop
  have hst' : st' = cBulkLoaded := by
    obtain ⟨t, a, r⟩ := st'
    have htop' : t = cBulk.map (freshTopicNode 0 ⟨"r", 1, ""⟩) := htop
    have hacc' : a = [] := hacc
    have hrels' : r = [] := hrels
    show GraphState.mk t a r =
      GraphState.mk (cBulk.map (freshTopicNode 0 ⟨"r", 1, ""⟩)) [] []
    rw [htop', hacc', hrels']
  have hload : compatible_load 3 0 ⟨"r", 1, ""⟩ cBulk ⟨[], [], []⟩ =
      Except.ok cBulkLoaded := by
    rw [compatible_load, if_neg hv3, ← hst']
    exact hok
  have hlen1 : cBulkLoaded.topics.length = 10001 := by
    rw [cBulkLoaded]
    simp [cBulk]
  have hred : cleanup_sns 3 ⟨2, "000000000000"⟩ cBulkLoaded =
      legacyCleanup ⟨2, "000000000000"⟩ cBulkLoaded := by
    rw [cleanup_sns, if_neg hv3]
  have htopeq : (legacyCleanup ⟨2, "000000000000"⟩ cBulkLoaded).topics =
      (deleteStale 2 10000 cBulkLoaded.topics).1 := legacyCleanup_topics _ _
  have hpos : 0 < (cleanup_sns 3 ⟨2, "000000000000"⟩ cBulkLoaded).topics.length := by
    rw [hred, htopeq]
    have hb := deleteStale_length 2 cBulkLoaded.topics 10000
    rw [hlen1] at hb
    omega
  refine ⟨?_, hload, ?_, ?_⟩
  · rw [cBulk]
    simp
  · rw [compatible_load, if_neg hv3]
    rfl
  · exact List.length_pos.mp hpos
